import Mathlib

/-!
Verification of the TaskFlow board mutation engine.

The definitions below are a shallow embedding of the Board component of the
TaskFlow repository (src/unnamed/part_001, second document: the handlers
handleDragEnd, handleAddTask, handleUpdateTask, handleDeleteTask,
handleRenameColumn, handleDeleteColumn, handleAddColumn, handleGlobalTagUpdate,
handleDeleteTag, together with the data model of types.ts in
src/unnamed/part_006 and the add-task guard of src/src/components/Column.tsx).

JS objects (Record of string keys) are modelled as association lists with the
JS property semantics: updating an existing key replaces its value in place,
updating a fresh key appends it, delete removes the key.  Handlers that can
return without calling onBoardUpdate are modelled as returning an Option Board,
where none means that no board update was dispatched.  Values produced by
generateId() and by new Date().toISOString() are nondeterministic inputs of the
code and are passed to the embedded handlers as explicit parameters.
-/

namespace TaskFlow

/-- Palette of tag colors (types.ts TagColor). -/
inductive TagColor where
  | blue | green | yellow | red | purple | pink
deriving DecidableEq

/-- A tag: the label is its identity, plus a color (types.ts Tag). -/
structure Tag where
  label : String
  color : TagColor
deriving DecidableEq

/-- Task priority values (types.ts): the literals Hoch, Mittel, Gering. -/
inductive Priority where
  | hoch | mittel | gering
deriving DecidableEq

/-- The string literal of a priority value as it appears in the code. -/
def Priority.text : Priority → String
  | .hoch => "Hoch"
  | .mittel => "Mittel"
  | .gering => "Gering"

/-- Action kinds of an activity log entry (types.ts ActivityLogEntry.action). -/
inductive LogAction where
  | created
  | title_changed
  | description_changed
  | dates_changed
  | column_changed
  | tags_changed
  | priority_changed
deriving DecidableEq

/-- oldValue and newValue of a log entry carry either a string or a string
array (types.ts: string | string[]). -/
inductive LogValue where
  | str (s : String)
  | strs (l : List String)
deriving DecidableEq

/-- One activity log entry (types.ts ActivityLogEntry). -/
structure ActivityLogEntry where
  id : String
  timestamp : String
  action : LogAction
  oldValue : Option LogValue := none
  newValue : Option LogValue := none
  details : String := ""
deriving DecidableEq

/-- A task (types.ts Task). priority and assignedMembers are optional fields;
activityLog is a required field of the current Task interface. -/
structure Task where
  id : String
  title : String
  description : String
  startDate : String
  endDate : String
  columnId : String
  tags : List String
  priority : Option Priority := none
  activityLog : List ActivityLogEntry := []
  assignedMembers : Option (List String) := none
deriving DecidableEq

/-- A column (types.ts Column): ordered sequence of task ids. -/
structure Column where
  id : String
  title : String
  taskIds : List String
deriving DecidableEq

/-- A team member (types.ts TeamMember); used to resolve names in log details. -/
structure TeamMember where
  id : String
  name : String
  email : String
  joinedAt : String
deriving DecidableEq

/-- The board aggregate (types.ts Board).  tasks and globalTags are JS objects,
modelled as association lists with unique keys. -/
structure Board where
  id : String
  title : String
  columns : List Column
  tasks : List (String × Task)
  globalTags : List (String × Tag)
  teamIds : Option (List String) := none
deriving DecidableEq

/-- JS property read m[k] on an object modelled as an association list. -/
def jsGet (m : List (String × α)) (k : String) : Option α :=
  (m.find? (fun p => p.1 == k)).map (fun p => p.2)

/-- JS property write (the spread pattern with a computed key): an existing key
keeps its position and gets the new value, a fresh key is appended. -/
def jsSet (m : List (String × α)) (k : String) (v : α) : List (String × α) :=
  match m with
  | [] => [(k, v)]
  | p :: rest => if p.1 = k then (k, v) :: rest else p :: jsSet rest k v

/-- JS delete of a property. -/
def jsDelete (m : List (String × α)) (k : String) : List (String × α) :=
  m.filter (fun p => p.1 != k)

/-- Keys of a JS object modelled as an association list. -/
def keys (m : List (String × α)) : List String :=
  m.map (fun p => p.1)

/-- Test modelling taskId.startsWith of the literal used for temporary tasks. -/
def startsWithTemp (s : String) : Bool :=
  match s.data with
  | 't' :: 'e' :: 'm' :: 'p' :: '-' :: _ => true
  | _ => false

/-- Truthiness of title.trim(): true when some character is not whitespace. -/
def jsTrimNonempty (s : String) : Bool :=
  s.data.any (fun c => !c.isWhitespace)

/-- JS short-circuit (o || d) for an optional string: null and the empty string
are falsy. -/
def jsOrString (o : Option String) (d : String) : String :=
  match o with
  | some s => if s = "" then d else s
  | none => d

/-- A drag-end event as the handler consumes it: the dragged task id and the id
under the pointer (a column id or a task id), or none when dropped outside
every drop target. -/
structure DragEndEvent where
  activeId : String
  overId : Option String
deriving DecidableEq

/-- Modelled from the spec: the dnd-kit arrayMove helper is an external library
dependency, not code of this repository.  The spec pins the reorder semantics:
the moved element is removed at its old index and reinserted at the index of
the reference element computed in the original sequence, before removal.  The
out-of-range case (the library would splice in an undefined hole) is
unreachable from the handler, which only calls this with found indices. -/
def arrayMove (l : List α) (i j : Nat) : List α :=
  match l.get? i with
  | some x => List.insertIdx j x (l.eraseIdx i)
  | none => l.eraseIdx i

/-- handleDragEnd of the Board component: the board update dispatched for a
drop gesture, or none when the handler returns without dispatching one. -/
def handleDragEnd (b : Board) (ev : DragEndEvent) : Option Board :=
  match ev.overId with
  | none => none
  | some overId =>
    match jsGet b.tasks ev.activeId with
    | none => none
    | some activeTask =>
      match b.columns.find? (fun col => col.id == overId) with
      | some targetColumn =>
        match b.columns.find? (fun col => col.id == activeTask.columnId) with
        | some sourceColumn =>
          if sourceColumn.id ≠ targetColumn.id then
            some { b with
              columns := b.columns.map (fun col =>
                if col.id = sourceColumn.id then
                  { col with taskIds := col.taskIds.filter (fun i => i != ev.activeId) }
                else if col.id = targetColumn.id then
                  { col with taskIds := col.taskIds ++ [ev.activeId] }
                else col),
              tasks := jsSet b.tasks ev.activeId { activeTask with columnId := targetColumn.id } }
          else none
        | none => none
      | none =>
        match jsGet b.tasks overId with
        | none => none
        | some overTask =>
          match b.columns.find? (fun col => col.id == activeTask.columnId),
                b.columns.find? (fun col => col.id == overTask.columnId) with
          | some sourceColumn, some targetColumn =>
            if activeTask.columnId = overTask.columnId then
              let oldIndex := sourceColumn.taskIds.indexOf ev.activeId
              let newIndex := sourceColumn.taskIds.indexOf overId
              let newTaskIds := arrayMove sourceColumn.taskIds oldIndex newIndex
              some { b with
                columns := b.columns.map (fun col =>
                  if col.id = sourceColumn.id then { col with taskIds := newTaskIds }
                  else col) }
            else
              let newIndex := targetColumn.taskIds.indexOf overId
              let sourceTaskIds := sourceColumn.taskIds.filter (fun i => i != ev.activeId)
              let targetTaskIds := List.insertIdx newIndex ev.activeId targetColumn.taskIds
              some { b with
                columns := b.columns.map (fun col =>
                  if col.id = sourceColumn.id then { col with taskIds := sourceTaskIds }
                  else if col.id = targetColumn.id then { col with taskIds := targetTaskIds }
                  else col),
                tasks := jsSet b.tasks ev.activeId { activeTask with columnId := targetColumn.id } }
          | some _, none => none
          | none, _ => none

/-- handleAddTask of the Board component: builds the new task and dispatches
the updated board unconditionally.  The generated task id, the generated log
entry id and the timestamp are parameters. -/
def handleAddTask (newId entryId ts : String) (b : Board) (columnId title : String) : Board :=
  let newTask : Task :=
    { id := newId, title := title, description := "", startDate := "", endDate := "",
      columnId := columnId, tags := [],
      activityLog := [{ id := entryId, timestamp := ts, action := .created,
                        details := "Aufgabe wurde erstellt" }] }
  { b with
    columns := b.columns.map (fun col =>
      if col.id = columnId then { col with taskIds := col.taskIds ++ [newId] } else col),
    tasks := jsSet b.tasks newId newTask }

/-- The add-task guard of the Column component (src/src/components/Column.tsx):
the engine handler is only invoked when the entered title has a non-blank
trim; otherwise nothing happens. -/
def columnAddTask (newId entryId ts : String) (b : Board) (columnId title : String) :
    Option Board :=
  if jsTrimNonempty title then some (handleAddTask newId entryId ts b columnId title)
  else none

/-- A patch of optional task fields as handed to handleUpdateTask.  A field
that is absent from the patch is not part of the update. -/
structure TaskUpdates where
  title : Option String := none
  description : Option String := none
  startDate : Option String := none
  endDate : Option String := none
  columnId : Option String := none
  tags : Option (List String) := none
  priority : Option Priority := none
  assignedMembers : Option (List String) := none
deriving DecidableEq

/-- The JS spread update of a task with a patch: every present field replaces
the old value. -/
def applyUpdates (t : Task) (u : TaskUpdates) : Task :=
  { t with
    title := u.title.getD t.title,
    description := u.description.getD t.description,
    startDate := u.startDate.getD t.startDate,
    endDate := u.endDate.getD t.endDate,
    columnId := u.columnId.getD t.columnId,
    tags := u.tags.getD t.tags,
    priority := match u.priority with | some p => some p | none => t.priority,
    assignedMembers :=
      match u.assignedMembers with | some v => some v | none => t.assignedMembers }

/-- Modelled from the spec: the log sentences format dates as day/month/year;
the JS Date locale rendering is environment behavior outside this repository.
Inputs are the YYYY-MM-DD strings of the date fields; empty means no date. -/
def formatDateDe (date : String) : String :=
  if date = "" then "kein Datum"
  else
    match date.splitOn "-" with
    | [y, m, d] => d ++ "." ++ m ++ "." ++ y
    | _ => date

/-- Title text of an optional column as JS string interpolation renders it. -/
def colTitleText : Option Column → String
  | some c => c.title
  | none => "undefined"

/-- Member ids rendered as names where resolvable, as in the handler. -/
def getMemberNames (assignable : List TeamMember) (memberIds : List String) : String :=
  String.intercalate ", " (memberIds.map (fun i =>
    match assignable.find? (fun m => m.id == i) with
    | some m => m.name
    | none => i))

/-- Title-change entry block of handleUpdateTask. -/
def titleEntries (gid ts : String) (t : Task) (u : TaskUpdates) : List ActivityLogEntry :=
  match u.title with
  | some v =>
    if v = t.title then []
    else
      [{ id := gid, timestamp := ts, action := .title_changed,
         oldValue := some (.str t.title), newValue := some (.str v),
         details := "Titel wurde von \"" ++ t.title ++ "\" zu \"" ++ v ++ "\" geändert" }]
  | none => []

/-- Description-change entry block of handleUpdateTask. -/
def descriptionEntries (gid ts : String) (t : Task) (u : TaskUpdates) :
    List ActivityLogEntry :=
  match u.description with
  | some v =>
    if v = t.description then []
    else
      [{ id := gid, timestamp := ts, action := .description_changed,
         oldValue := some (.str t.description), newValue := some (.str v),
         details := if t.description ≠ "" then "Beschreibung wurde geändert"
                    else "Beschreibung wurde hinzugefügt" }]
  | none => []

/-- Start-date entry block of handleUpdateTask. -/
def startDateEntries (gid ts : String) (t : Task) (u : TaskUpdates) :
    List ActivityLogEntry :=
  match u.startDate with
  | some v =>
    if v = t.startDate then []
    else
      [{ id := gid, timestamp := ts, action := .dates_changed,
         oldValue := some (.str t.startDate), newValue := some (.str v),
         details := "Startdatum wurde von \"" ++ formatDateDe t.startDate ++
                    "\" zu \"" ++ formatDateDe v ++ "\" geändert" }]
  | none => []

/-- End-date entry block of handleUpdateTask. -/
def endDateEntries (gid ts : String) (t : Task) (u : TaskUpdates) :
    List ActivityLogEntry :=
  match u.endDate with
  | some v =>
    if v = t.endDate then []
    else
      [{ id := gid, timestamp := ts, action := .dates_changed,
         oldValue := some (.str t.endDate), newValue := some (.str v),
         details := "Enddatum wurde von \"" ++ formatDateDe t.endDate ++
                    "\" zu \"" ++ formatDateDe v ++ "\" geändert" }]
  | none => []

/-- Column-change entry block of handleUpdateTask. -/
def columnEntries (gid ts : String) (cols : List Column) (t : Task) (u : TaskUpdates) :
    List ActivityLogEntry :=
  match u.columnId with
  | some v =>
    if v = t.columnId then []
    else
      let oldCol := cols.find? (fun c => c.id == t.columnId)
      let newCol := cols.find? (fun c => c.id == v)
      [{ id := gid, timestamp := ts, action := .column_changed,
         oldValue := oldCol.map (fun c => LogValue.str c.title),
         newValue := newCol.map (fun c => LogValue.str c.title),
         details := "Status wurde von \"" ++ colTitleText oldCol ++
                    "\" zu \"" ++ colTitleText newCol ++ "\" geändert" }]
  | none => []

/-- Tag-change entry block of handleUpdateTask. -/
def tagsEntries (gid ts : String) (t : Task) (u : TaskUpdates) : List ActivityLogEntry :=
  match u.tags with
  | some v =>
    if v = t.tags then []
    else
      let added := v.filter (fun x => !t.tags.contains x)
      let removed := t.tags.filter (fun x => !v.contains x)
      let d :=
        if added ≠ [] ∧ removed ≠ [] then
          "Tags geändert: " ++ String.intercalate ", " added ++
          " hinzugefügt, " ++ String.intercalate ", " removed ++ " entfernt"
        else if added ≠ [] then "Tags hinzugefügt: " ++ String.intercalate ", " added
        else if removed ≠ [] then "Tags entfernt: " ++ String.intercalate ", " removed
        else ""
      [{ id := gid, timestamp := ts, action := .tags_changed,
         oldValue := some (.strs t.tags), newValue := some (.strs v), details := d }]
  | none => []

/-- Priority-change entry block of handleUpdateTask. -/
def priorityEntries (gid ts : String) (t : Task) (u : TaskUpdates) :
    List ActivityLogEntry :=
  match u.priority with
  | some p =>
    if t.priority = some p then []
    else
      [{ id := gid, timestamp := ts, action := .priority_changed,
         oldValue := t.priority.map (fun q => .str q.text),
         newValue := some (.str p.text),
         details := "Priorität wurde von \"" ++
                    (match t.priority with | some q => q.text | none => "Keine") ++
                    "\" zu \"" ++ p.text ++ "\" geändert" }]
  | none => []

/-- Assigned-member entry block of handleUpdateTask; it reuses the
tags_changed action, as the code comments note. -/
def membersEntries (gid ts : String) (assignable : List TeamMember) (t : Task)
    (u : TaskUpdates) : List ActivityLogEntry :=
  match u.assignedMembers with
  | some v =>
    let oldM := t.assignedMembers.getD []
    if v = oldM then []
    else
      let added := v.filter (fun x => !oldM.contains x)
      let removed := oldM.filter (fun x => !v.contains x)
      let d :=
        if added ≠ [] ∧ removed ≠ [] then
          "Mitarbeiter geändert: " ++ getMemberNames assignable added ++
          " hinzugefügt, " ++ getMemberNames assignable removed ++ " entfernt"
        else if added ≠ [] then
          "Mitarbeiter hinzugefügt: " ++ getMemberNames assignable added
        else if removed ≠ [] then
          "Mitarbeiter entfernt: " ++ getMemberNames assignable removed
        else ""
      [{ id := gid, timestamp := ts, action := .tags_changed,
         oldValue := some (.strs oldM), newValue := some (.strs v), details := d }]
  | none => []

/-- The list of activity log entries handleUpdateTask appends for one patch,
in the order the code checks the fields: title, description, startDate,
endDate, columnId, tags, priority, assignedMembers.  gen is the stream of
generateId() results, consumed in creation order (the index passed to gen is
the number of entries created so far); ts the shared timestamp. -/
def updLogEntries (gen : Nat → String) (ts : String) (cols : List Column)
    (assignable : List TeamMember) (t : Task) (u : TaskUpdates) :
    List ActivityLogEntry :=
  let e1 := titleEntries (gen 0) ts t u
  let e2 := descriptionEntries (gen e1.length) ts t u
  let e3 := startDateEntries (gen (e1.length + e2.length)) ts t u
  let e4 := endDateEntries (gen (e1.length + e2.length + e3.length)) ts t u
  let e5 := columnEntries (gen (e1.length + e2.length + e3.length + e4.length)) ts cols t u
  let e6 := tagsEntries
    (gen (e1.length + e2.length + e3.length + e4.length + e5.length)) ts t u
  let e7 := priorityEntries
    (gen (e1.length + e2.length + e3.length + e4.length + e5.length + e6.length)) ts t u
  let e8 := membersEntries
    (gen (e1.length + e2.length + e3.length + e4.length + e5.length + e6.length +
      e7.length)) ts assignable t u
  e1 ++ e2 ++ e3 ++ e4 ++ e5 ++ e6 ++ e7 ++ e8

/-- The title field is present in the patch with a different value. -/
def titleDiff (t : Task) (u : TaskUpdates) : Bool :=
  match u.title with
  | some v => v != t.title
  | none => false

/-- The description field is present in the patch with a different value. -/
def descriptionDiff (t : Task) (u : TaskUpdates) : Bool :=
  match u.description with
  | some v => v != t.description
  | none => false

/-- The startDate field is present in the patch with a different value. -/
def startDateDiff (t : Task) (u : TaskUpdates) : Bool :=
  match u.startDate with
  | some v => v != t.startDate
  | none => false

/-- The endDate field is present in the patch with a different value. -/
def endDateDiff (t : Task) (u : TaskUpdates) : Bool :=
  match u.endDate with
  | some v => v != t.endDate
  | none => false

/-- The columnId field is present in the patch with a different value. -/
def columnDiff (t : Task) (u : TaskUpdates) : Bool :=
  match u.columnId with
  | some v => v != t.columnId
  | none => false

/-- The tags field is present in the patch with a different value. -/
def tagsDiff (t : Task) (u : TaskUpdates) : Bool :=
  match u.tags with
  | some v => v != t.tags
  | none => false

/-- The priority field is present in the patch with a different value. -/
def priorityDiff (t : Task) (u : TaskUpdates) : Bool :=
  match u.priority with
  | some p => t.priority != some p
  | none => false

/-- The assignedMembers field is present in the patch with a value different
from the old members (absent old members count as empty, as in the code). -/
def membersDiff (t : Task) (u : TaskUpdates) : Bool :=
  match u.assignedMembers with
  | some v => v != t.assignedMembers.getD []
  | none => false

/-- Side condition under which a column change in a patch keeps the invariant:
the columnId field is absent, or names the current column, or is a non-empty
id of an existing column.  The empty string is the falsy-columnId trap: the
task field is overwritten but the column move is skipped. -/
def colMoveOk (b : Board) (t : Task) (u : TaskUpdates) : Bool :=
  match u.columnId with
  | some c => c == t.columnId || (c != "" && (b.columns.map Column.id).contains c)
  | none => true

/-- Truthiness test updates.columnId && updates.columnId !== task.columnId of
the handler: the column move runs only for a present, non-empty, different
columnId. -/
def colMoveTruthy (u : TaskUpdates) (t : Task) : Bool :=
  match u.columnId with
  | some c => c != "" && c != t.columnId
  | none => false

/-- All-empty task: stands for the fields a JS spread of an absent object
leaves undefined in the temporary-task branch.  In the application a task with
a temp- id is never stored in the snapshot, so that branch never reads these
defaults from a stored task. -/
def defaultTask : Task :=
  { id := "", title := "", description := "", startDate := "", endDate := "",
    columnId := "", tags := [] }

/-- handleUpdateTask of the Board component.  Returns the dispatched board, or
none when the handler returns without dispatching (temporary-task branch with
a blank or absent title, or an unknown non-temporary task id).  gen is the
stream of generateId() results consumed in call order, ts the shared
timestamp, newTaskColumnId the component state cell of that name. -/
def handleUpdateTask (gen : Nat → String) (ts : String) (newTaskColumnId : Option String)
    (assignable : List TeamMember) (b : Board) (taskId : String) (u : TaskUpdates) :
    Option Board :=
  let task? := jsGet b.tasks taskId
  if startsWithTemp taskId then
    match u.title with
    | some v =>
      if jsTrimNonempty v then
        let base := task?.getD defaultTask
        let realId := gen 0
        let newTask : Task :=
          { applyUpdates base u with
            id := realId,
            activityLog := [{ id := gen 1, timestamp := ts, action := .created,
                              details := "Aufgabe wurde erstellt" }] }
        let columnId := jsOrString newTaskColumnId base.columnId
        some { b with
          columns := b.columns.map (fun col =>
            if col.id = columnId then { col with taskIds := col.taskIds ++ [realId] }
            else col),
          tasks := jsSet b.tasks realId newTask }
      else none
    | none => none
  else
    match task? with
    | none => none
    | some task =>
      let es := updLogEntries gen ts b.columns assignable task u
      let updatedTask : Task :=
        { applyUpdates task u with activityLog := task.activityLog ++ es }
      let newColumns :=
        if colMoveTruthy u task then
          b.columns.map (fun col =>
            if col.id = task.columnId then
              { col with taskIds := col.taskIds.filter (fun i => i != taskId) }
            else if u.columnId = some col.id then
              { col with taskIds := col.taskIds ++ [taskId] }
            else col)
        else b.columns
      some { b with columns := newColumns, tasks := jsSet b.tasks taskId updatedTask }

/-- handleDeleteTask of the Board component.  The handler returns without a
dispatch for temp- ids and for unknown ids, leaving the board unchanged, which
this embedding renders by returning the input board. -/
def handleDeleteTask (b : Board) (taskId : String) : Board :=
  if startsWithTemp taskId then b
  else
    match jsGet b.tasks taskId with
    | none => b
    | some task =>
      { b with
        columns := b.columns.map (fun col =>
          if col.id = task.columnId then
            { col with taskIds := col.taskIds.filter (fun i => i != taskId) }
          else col),
        tasks := jsDelete b.tasks taskId }

/-- handleRenameColumn of the Board component. -/
def handleRenameColumn (b : Board) (columnId newTitle : String) : Board :=
  { b with
    columns := b.columns.map (fun col =>
      if col.id = columnId then { col with title := newTitle } else col) }

/-- handleDeleteColumn of the Board component: deletes every task referenced by
the column, then the column; none when the column id is unknown (the handler
returns without dispatching). -/
def handleDeleteColumn (b : Board) (columnId : String) : Option Board :=
  match b.columns.find? (fun col => col.id == columnId) with
  | none => none
  | some column =>
    some { b with
      columns := b.columns.filter (fun col => col.id != columnId),
      tasks := column.taskIds.foldl (fun m tid => jsDelete m tid) b.tasks }

/-- handleAddColumn of the Board component; the generated id is a parameter. -/
def handleAddColumn (newId : String) (b : Board) : Board :=
  { b with columns := b.columns ++ [{ id := newId, title := "Neue Spalte", taskIds := [] }] }

/-- handleGlobalTagUpdate of the Board component: upsert of a tag by label. -/
def handleGlobalTagUpdate (b : Board) (label : String) (tag : Tag) : Board :=
  { b with globalTags := jsSet b.globalTags label tag }

/-- handleDeleteTag of the Board component: removes the label from the tag list
of every task holding it, and the tag from the global registry. -/
def handleDeleteTag (b : Board) (tagLabel : String) : Board :=
  { b with
    tasks := b.tasks.map (fun p =>
      if p.2.tags.contains tagLabel then
        (p.1, { p.2 with tags := p.2.tags.filter (fun t => t != tagLabel) })
      else p),
    globalTags := jsDelete b.globalTags tagLabel }

/-- The snapshot invariant of the board graph: task keys are unique (inherent
to a JS object, explicit on association lists), every id in every column
sequence is a key of tasks, every task lies in some column whose id equals its
columnId back-reference, and no task id occurs twice within one column or
across two columns (so that column is unique). -/
def Inv (b : Board) : Prop :=
  (keys b.tasks).Nodup ∧
  (∀ c ∈ b.columns, ∀ tid ∈ c.taskIds, tid ∈ keys b.tasks) ∧
  (∀ p ∈ b.tasks, ∃ c, c ∈ b.columns ∧ c.id = (p.2 : Task).columnId ∧ p.1 ∈ c.taskIds) ∧
  ((b.columns.map Column.taskIds).flatten.Nodup)

instance (b : Board) : Decidable (Inv b) := by
  unfold Inv
  infer_instance

/-- Proof-side helper naming the column-map pattern shared by the handlers:
apply f to the task-id sequence of every column whose id is x, keep the other
columns unchanged. -/
def updateColsAt (x : String) (f : List String → List String) (cols : List Column) :
    List Column :=
  cols.map (fun c => if c.id = x then { c with taskIds := f c.taskIds } else c)

/-- Concrete task fixture used by witnesses. -/
def mkTask (i cid : String) : Task :=
  { id := i, title := i, description := "", startDate := "", endDate := "",
    columnId := cid, tags := [] }

/-- Concrete board fixture: one column holding tasks A, B, C in that order. -/
def bABC : Board :=
  { id := "b1", title := "Board",
    columns := [{ id := "doing", title := "Doing", taskIds := ["A", "B", "C"] }],
    tasks := [("A", mkTask "A" "doing"), ("B", mkTask "B" "doing"),
              ("C", mkTask "C" "doing")],
    globalTags := [] }

/-- Concrete board fixture: column doing holding A, column done empty. -/
def bTwo : Board :=
  { id := "b2", title := "Board",
    columns := [{ id := "doing", title := "Doing", taskIds := ["A"] },
                { id := "done", title := "Done", taskIds := [] }],
    tasks := [("A", mkTask "A" "doing")],
    globalTags := [] }

/-- Concrete board fixture: backlog holds X and Y, doing holds A. -/
def bXY : Board :=
  { id := "b3", title := "Board",
    columns := [{ id := "backlog", title := "Backlog", taskIds := ["X", "Y"] },
                { id := "doing", title := "Doing", taskIds := ["A"] }],
    tasks := [("X", mkTask "X" "backlog"), ("Y", mkTask "Y" "backlog"),
              ("A", mkTask "A" "doing")],
    globalTags := [] }

/-- Concrete board fixture: one task with title Old. -/
def bOld : Board :=
  { id := "b4", title := "Board",
    columns := [{ id := "doing", title := "Doing", taskIds := ["T"] }],
    tasks := [("T", { mkTask "T" "doing" with title := "Old" })],
    globalTags := [] }

/-- Concrete id stream for witnesses. -/
def genW : Nat → String :=
  fun n => if n = 0 then "gid0" else "gid1"

theorem jsGet_cons (p : String × α) (m : List (String × α)) (k : String) :
    jsGet (p :: m) k = if p.1 = k then some p.2 else jsGet m k := by
  by_cases h : p.1 = k <;> simp [jsGet, List.find?_cons, h]

theorem jsGet_jsSet (m : List (String × α)) (k k' : String) (v : α) :
    jsGet (jsSet m k v) k' = if k' = k then some v else jsGet m k' := by
  induction m with
  | nil =>
    rw [jsSet, jsGet_cons]
    by_cases h : k' = k
    · rw [if_pos h.symm, if_pos h]
    · rw [if_neg (fun hh => h hh.symm), if_neg h]
  | cons p rest ih =>
    by_cases hp : p.1 = k
    · rw [jsSet, if_pos hp, jsGet_cons, jsGet_cons]
      by_cases h : k' = k
      · rw [if_pos h.symm, if_pos h]
      · rw [if_neg (fun hh => h hh.symm), if_neg h,
          if_neg (fun hh : p.1 = k' => h (hp.symm.trans hh).symm)]
    · rw [jsSet, if_neg hp, jsGet_cons, ih, jsGet_cons]
      by_cases h1 : p.1 = k'
      · by_cases h2 : k' = k
        · exact absurd (h1.trans h2) hp
        · rw [if_pos h1, if_neg h2, if_pos h1]
      · by_cases h2 : k' = k
        · rw [if_neg h1, if_pos h2, if_pos h2]
        · rw [if_neg h1, if_neg h2, if_neg h2, if_neg h1]

theorem jsDelete_cons (p : String × α) (m : List (String × α)) (k : String) :
    jsDelete (p :: m) k =
      if p.1 = k then jsDelete m k else p :: jsDelete m k := by
  rw [jsDelete, List.filter_cons]
  by_cases hp : p.1 = k
  · rw [if_pos hp, if_neg (by simpa using hp)]
    rfl
  · rw [if_neg hp, if_pos (by simpa using hp)]
    rfl

theorem jsGet_jsDelete (m : List (String × α)) (k k' : String) :
    jsGet (jsDelete m k) k' = if k' = k then none else jsGet m k' := by
  induction m with
  | nil =>
    by_cases h : k' = k
    · rw [if_pos h]
      rfl
    · rw [if_neg h]
      rfl
  | cons p rest ih =>
    rw [jsDelete_cons]
    by_cases hp : p.1 = k
    · rw [if_pos hp, ih, jsGet_cons]
      by_cases h : k' = k
      · rw [if_pos h, if_pos h]
      · rw [if_neg h, if_neg h, if_neg (fun hh : p.1 = k' => h (hp.symm.trans hh).symm)]
    · rw [if_neg hp, jsGet_cons, ih, jsGet_cons]
      by_cases h1 : p.1 = k'
      · by_cases h2 : k' = k
        · exact absurd (h1.trans h2) hp
        · rw [if_pos h1, if_neg h2, if_pos h1]
      · by_cases h2 : k' = k
        · rw [if_neg h1, if_pos h2, if_pos h2]
        · rw [if_neg h1, if_neg h2, if_neg h2, if_neg h1]

theorem mem_keys_iff_jsGet (m : List (String × α)) (k : String) :
    k ∈ keys m ↔ (jsGet m k).isSome := by
  induction m with
  | nil => simp [keys, jsGet]
  | cons p rest ih =>
    rw [keys, List.map_cons, List.mem_cons, jsGet_cons]
    by_cases h : p.1 = k
    · simp [h]
    · simp only [if_neg h]
      rw [keys] at ih
      rw [← ih]
      simp [Ne.symm h]

theorem jsGet_eq_none_of_not_mem (m : List (String × α)) (k : String)
    (h : k ∉ keys m) : jsGet m k = none := by
  rcases ho : jsGet m k with _ | v
  · rfl
  · exact absurd ((mem_keys_iff_jsGet m k).2 (by simp [ho])) h

theorem keys_jsSet (m : List (String × α)) (k : String) (v : α) :
    keys (jsSet m k v) = if k ∈ keys m then keys m else keys m ++ [k] := by
  induction m with
  | nil => simp [jsSet, keys]
  | cons p rest ih =>
    by_cases hp : p.1 = k
    · simp [jsSet, hp, keys]
    · rw [jsSet, if_neg hp]
      have h1 : keys (p :: jsSet rest k v) = p.1 :: keys (jsSet rest k v) := rfl
      have h2 : keys (p :: rest) = p.1 :: keys rest := rfl
      rw [h1, h2, ih]
      by_cases h : k ∈ keys rest
      · rw [if_pos h, if_pos (List.mem_cons_of_mem _ h)]
      · rw [if_neg h, if_neg (by
          intro hmem
          rcases List.mem_cons.1 hmem with hh | hh
          · exact hp hh.symm
          · exact h hh)]
        rfl

theorem nodup_keys_jsSet (m : List (String × α)) (k : String) (v : α)
    (h : (keys m).Nodup) : (keys (jsSet m k v)).Nodup := by
  rw [keys_jsSet]
  by_cases hm : k ∈ keys m
  · simpa [hm]
  · simp only [hm, if_false]
    simpa [List.nodup_append] using ⟨h, hm⟩

theorem mem_jsSet (m : List (String × α)) (k : String) (v : α)
    (hnd : (keys m).Nodup) (p : String × α) :
    p ∈ jsSet m k v ↔ p = (k, v) ∨ (p ∈ m ∧ p.1 ≠ k) := by
  induction m with
  | nil => simp [jsSet]
  | cons q rest ih =>
    rw [keys, List.map_cons, List.nodup_cons] at hnd
    by_cases hq : q.1 = k
    · rw [jsSet, if_pos hq, List.mem_cons, List.mem_cons]
      constructor
      · rintro (h | h)
        · exact Or.inl h
        · refine Or.inr ⟨Or.inr h, ?_⟩
          intro hk
          exact hnd.1 (hq ▸ hk ▸ List.mem_map_of_mem (fun r => r.1) h)
      · rintro (h | ⟨(h | h), hk⟩)
        · exact Or.inl h
        · exact absurd (h ▸ hq) hk
        · exact Or.inr h
    · rw [jsSet, if_neg hq, List.mem_cons, List.mem_cons, ih hnd.2]
      constructor
      · rintro (h | h | h)
        · exact Or.inr ⟨Or.inl h, h ▸ hq⟩
        · exact Or.inl h
        · exact Or.inr ⟨Or.inr h.1, h.2⟩
      · rintro (h | ⟨(h | h), hk⟩)
        · exact Or.inr (Or.inl h)
        · exact Or.inl h
        · exact Or.inr (Or.inr ⟨h, hk⟩)

theorem mem_jsDelete (m : List (String × α)) (k : String) (p : String × α) :
    p ∈ jsDelete m k ↔ p ∈ m ∧ p.1 ≠ k := by
  simp [jsDelete, List.mem_filter]

theorem keys_jsDelete (m : List (String × α)) (k : String) :
    keys (jsDelete m k) = (keys m).filter (fun x => x != k) := by
  induction m with
  | nil => simp [jsDelete, keys]
  | cons p rest ih =>
    rw [jsDelete_cons]
    have h2 : keys (p :: rest) = p.1 :: keys rest := rfl
    rw [h2, List.filter_cons]
    by_cases hp : p.1 = k
    · rw [if_pos hp, ih, if_neg (by simpa using hp)]
    · rw [if_neg hp, if_pos (by simpa using hp)]
      have h3 : keys (p :: jsDelete rest k) = p.1 :: keys (jsDelete rest k) := rfl
      rw [h3, ih]

theorem jsGet_foldl_jsDelete (L : List String) (m : List (String × α)) (k : String) :
    jsGet (L.foldl (fun acc tid => jsDelete acc tid) m) k =
      if k ∈ L then none else jsGet m k := by
  induction L generalizing m with
  | nil => simp
  | cons x rest ih =>
    rw [List.foldl_cons, ih]
    by_cases hx : k ∈ rest
    · simp [hx]
    · by_cases hk : k = x
      · simp [hx, hk, jsGet_jsDelete]
      · simp [hx, hk, jsGet_jsDelete]

theorem mem_foldl_jsDelete (L : List String) (m : List (String × α)) (p : String × α) :
    p ∈ L.foldl (fun acc tid => jsDelete acc tid) m ↔ p ∈ m ∧ p.1 ∉ L := by
  induction L generalizing m with
  | nil => simp
  | cons x rest ih =>
    rw [List.foldl_cons, ih, mem_jsDelete]
    constructor
    · rintro ⟨⟨hm, hx⟩, hrest⟩
      exact ⟨hm, by simp [hx, hrest]⟩
    · rintro ⟨hm, hL⟩
      simp only [List.mem_cons, not_or] at hL
      exact ⟨⟨hm, hL.1⟩, hL.2⟩

theorem jsGet_some_mem (m : List (String × α)) (k : String) (v : α)
    (h : jsGet m k = some v) : (k, v) ∈ m := by
  induction m with
  | nil => simp [jsGet] at h
  | cons p rest ih =>
    rw [jsGet_cons] at h
    by_cases hp : p.1 = k
    · rw [if_pos hp] at h
      cases p with
      | mk a b =>
        cases hp
        cases Option.some.inj h
        exact List.mem_cons_self _ _
    · rw [if_neg hp] at h
      exact List.mem_cons_of_mem _ (ih h)

theorem find?_col_of_mem (cols : List Column) (hids : (cols.map Column.id).Nodup)
    (c : Column) (hc : c ∈ cols) (x : String) (hx : c.id = x) :
    cols.find? (fun col => col.id == x) = some c := by
  induction cols with
  | nil => cases hc
  | cons d rest ih =>
    rw [List.map_cons, List.nodup_cons] at hids
    by_cases hd : d.id = x
    · rw [List.find?_cons_of_pos _ (by simpa using hd)]
      rcases List.mem_cons.1 hc with h | h
      · rw [h]
      · have hmem : d.id ∈ List.map Column.id rest := by
          rw [hd, ← hx]
          exact List.mem_map_of_mem Column.id h
        exact absurd hmem hids.1
    · rw [List.find?_cons_of_neg _ (by simpa using hd)]
      rcases List.mem_cons.1 hc with h | h
      · exact absurd (h ▸ hx) hd
      · exact ih hids.2 h

theorem find?_col_eq_none (cols : List Column) (x : String)
    (h : ∀ c ∈ cols, c.id ≠ x) :
    cols.find? (fun col => col.id == x) = none := by
  rw [List.find?_eq_none]
  intro c hc
  simpa using h c hc

theorem filter_ne_of_not_mem (l : List String) (a : String) (h : a ∉ l) :
    l.filter (fun i => i != a) = l := by
  induction l with
  | nil => rfl
  | cons x rest ih =>
    rw [List.mem_cons, not_or] at h
    rw [List.filter_cons, if_pos (by simpa using Ne.symm h.1), ih h.2]

theorem filter_ne_perm (l : List String) (a : String) (ha : a ∈ l) (hnd : l.Nodup) :
    List.Perm (a :: l.filter (fun i => i != a)) l := by
  induction l with
  | nil => cases ha
  | cons x rest ih =>
    rw [List.nodup_cons] at hnd
    by_cases hx : x = a
    · subst hx
      rw [List.filter_cons, if_neg (by simp), filter_ne_of_not_mem rest x hnd.1]
    · rw [List.filter_cons, if_pos (by simpa using Ne.symm (fun hh => hx hh.symm))]
      have ha' : a ∈ rest := by
        rcases List.mem_cons.1 ha with h | h
        · exact absurd h.symm hx
        · exact h
      exact (List.Perm.swap x a _).trans (List.Perm.cons x (ih ha' hnd.2))

theorem ids_updateColsAt (x : String) (f : List String → List String) (cols : List Column) :
    (updateColsAt x f cols).map Column.id = cols.map Column.id := by
  rw [updateColsAt, List.map_map]
  apply List.map_congr_left
  intro c _
  by_cases h : c.id = x
  · simp [h]
  · simp [h]

theorem mem_updateColsAt_self (x : String) (f : List String → List String)
    (cols : List Column) (c : Column) (hc : c ∈ cols) (hid : c.id = x) :
    { c with taskIds := f c.taskIds } ∈ updateColsAt x f cols := by
  rw [updateColsAt]
  refine List.mem_map.2 ⟨c, hc, ?_⟩
  show (if c.id = x then { c with taskIds := f c.taskIds } else c) = _
  rw [if_pos hid]

theorem mem_updateColsAt_of_ne (x : String) (f : List String → List String)
    (cols : List Column) (c : Column) (hc : c ∈ cols) (hid : c.id ≠ x) :
    c ∈ updateColsAt x f cols := by
  rw [updateColsAt]
  refine List.mem_map.2 ⟨c, hc, ?_⟩
  show (if c.id = x then { c with taskIds := f c.taskIds } else c) = c
  rw [if_neg hid]

theorem updateColsAt_eq_of_not_mem (x : String) (f : List String → List String)
    (cols : List Column) (h : ∀ c ∈ cols, c.id ≠ x) :
    updateColsAt x f cols = cols := by
  rw [updateColsAt]
  have h0 : ∀ c ∈ cols,
      (if c.id = x then { c with taskIds := f c.taskIds } else c) = id c := by
    intro c hc
    rw [if_neg (h c hc)]
    rfl
  rw [List.map_congr_left h0, List.map_id]

theorem flatten_updateColsAt_perm_cons (t : Column) (g : List String → List String)
    (a : String) (hg : List.Perm (g t.taskIds) (a :: t.taskIds)) :
    ∀ cols : List Column, (cols.map Column.id).Nodup → t ∈ cols →
      List.Perm (((updateColsAt t.id g cols).map Column.taskIds).flatten)
        (a :: ((cols.map Column.taskIds).flatten)) := by
  intro cols
  induction cols with
  | nil =>
    intro _ ht
    cases ht
  | cons d rest ih =>
    intro hids ht
    rw [List.map_cons, List.nodup_cons] at hids
    rcases List.mem_cons.1 ht with rfl | h
    · rw [updateColsAt, List.map_cons, if_pos rfl]
      have hrest : rest.map
          (fun c => if c.id = t.id then { c with taskIds := g c.taskIds } else c) = rest := by
        have h0 : ∀ c ∈ rest,
            (if c.id = t.id then { c with taskIds := g c.taskIds } else c) = id c := by
          intro c hc
          refine if_neg (fun hc2 => hids.1 ?_)
          rw [← hc2]
          exact List.mem_map_of_mem Column.id hc
        rw [List.map_congr_left h0, List.map_id]
      rw [hrest, List.map_cons, List.flatten_cons, List.map_cons, List.flatten_cons]
      exact hg.append_right _
    · have hd : d.id ≠ t.id := by
        intro hc2
        apply hids.1
        rw [hc2]
        exact List.mem_map_of_mem Column.id h
      rw [updateColsAt, List.map_cons, if_neg hd]
      rw [List.map_cons, List.flatten_cons, List.map_cons, List.flatten_cons]
      have step : List.Perm (((updateColsAt t.id g rest).map Column.taskIds).flatten)
          (a :: ((rest.map Column.taskIds).flatten)) := ih hids.2 h
      have mid : List.Perm (d.taskIds ++ a :: ((rest.map Column.taskIds).flatten))
          (a :: (d.taskIds ++ (rest.map Column.taskIds).flatten)) := List.perm_middle
      exact ((step.append_left d.taskIds).trans mid)

theorem flatten_updateColsAt_perm_filter (s : Column) (f : List String → List String)
    (a : String) (hf : f s.taskIds = s.taskIds.filter (fun i => i != a))
    (ha : a ∈ s.taskIds) (hnd : s.taskIds.Nodup) :
    ∀ cols : List Column, (cols.map Column.id).Nodup → s ∈ cols →
      List.Perm (a :: (((updateColsAt s.id f cols).map Column.taskIds).flatten))
        ((cols.map Column.taskIds).flatten) := by
  intro cols
  induction cols with
  | nil =>
    intro _ hs
    cases hs
  | cons d rest ih =>
    intro hids hs
    rw [List.map_cons, List.nodup_cons] at hids
    rcases List.mem_cons.1 hs with rfl | h
    · rw [updateColsAt, List.map_cons, if_pos rfl]
      have hrest : rest.map
          (fun c => if c.id = s.id then { c with taskIds := f c.taskIds } else c) = rest := by
        have h0 : ∀ c ∈ rest,
            (if c.id = s.id then { c with taskIds := f c.taskIds } else c) = id c := by
          intro c hc
          refine if_neg (fun hc2 => hids.1 ?_)
          rw [← hc2]
          exact List.mem_map_of_mem Column.id hc
        rw [List.map_congr_left h0, List.map_id]
      rw [hrest, List.map_cons, List.flatten_cons, List.map_cons, List.flatten_cons, hf]
      exact (filter_ne_perm s.taskIds a ha hnd).append_right _
    · have hd : d.id ≠ s.id := by
        intro hc2
        apply hids.1
        rw [hc2]
        exact List.mem_map_of_mem Column.id h
      rw [updateColsAt, List.map_cons, if_neg hd]
      rw [List.map_cons, List.flatten_cons, List.map_cons, List.flatten_cons]
      have step : List.Perm (a :: (((updateColsAt s.id f rest).map Column.taskIds).flatten))
          ((rest.map Column.taskIds).flatten) := ih hids.2 h
      have mid : List.Perm
          (a :: (d.taskIds ++ ((updateColsAt s.id f rest).map Column.taskIds).flatten))
          (d.taskIds ++ a :: (((updateColsAt s.id f rest).map Column.taskIds).flatten)) :=
        List.perm_middle.symm
      exact mid.trans (step.append_left d.taskIds)

theorem flatten_updateColsAt_perm_single (c0 : Column) (f : List String → List String)
    (hf : List.Perm (f c0.taskIds) c0.taskIds) :
    ∀ cols : List Column, (cols.map Column.id).Nodup → c0 ∈ cols →
      List.Perm (((updateColsAt c0.id f cols).map Column.taskIds).flatten)
        ((cols.map Column.taskIds).flatten) := by
  intro cols
  induction cols with
  | nil =>
    intro _ hc
    cases hc
  | cons d rest ih =>
    intro hids hc
    rw [List.map_cons, List.nodup_cons] at hids
    rcases List.mem_cons.1 hc with rfl | h
    · rw [updateColsAt, List.map_cons, if_pos rfl]
      have hrest : rest.map
          (fun c => if c.id = c0.id then { c with taskIds := f c.taskIds } else c) = rest := by
        have h0 : ∀ c ∈ rest,
            (if c.id = c0.id then { c with taskIds := f c.taskIds } else c) = id c := by
          intro c hc
          refine if_neg (fun hc2 => hids.1 ?_)
          rw [← hc2]
          exact List.mem_map_of_mem Column.id hc
        rw [List.map_congr_left h0, List.map_id]
      rw [hrest, List.map_cons, List.flatten_cons, List.map_cons, List.flatten_cons]
      exact hf.append_right _
    · have hd : d.id ≠ c0.id := by
        intro hc2
        apply hids.1
        rw [hc2]
        exact List.mem_map_of_mem Column.id h
      rw [updateColsAt, List.map_cons, if_neg hd]
      rw [List.map_cons, List.flatten_cons, List.map_cons, List.flatten_cons]
      exact (ih hids.2 h).append_left d.taskIds

theorem flatten_two_branch_perm (s t : Column) (hst : s.id ≠ t.id)
    (f g : List String → List String) (a : String)
    (hf : f s.taskIds = s.taskIds.filter (fun i => i != a))
    (ha : a ∈ s.taskIds) (hnds : s.taskIds.Nodup)
    (hg : List.Perm (g t.taskIds) (a :: t.taskIds)) :
    ∀ cols : List Column, (cols.map Column.id).Nodup → s ∈ cols → t ∈ cols →
      List.Perm (((cols.map (fun c =>
          if c.id = s.id then { c with taskIds := f c.taskIds }
          else if c.id = t.id then { c with taskIds := g c.taskIds }
          else c)).map Column.taskIds).flatten)
        ((cols.map Column.taskIds).flatten) := by
  intro cols
  induction cols with
  | nil =>
    intro _ hs
    cases hs
  | cons d rest ih =>
    intro hids hs ht
    rw [List.map_cons, List.nodup_cons] at hids
    rcases List.mem_cons.1 hs with rfl | hsr
    · have htr : t ∈ rest := by
        rcases List.mem_cons.1 ht with rfl | h
        · exact absurd rfl hst
        · exact h
      rw [List.map_cons, if_pos rfl]
      have hmap : rest.map (fun c =>
          if c.id = s.id then { c with taskIds := f c.taskIds }
          else if c.id = t.id then { c with taskIds := g c.taskIds }
          else c) = updateColsAt t.id g rest := by
        rw [updateColsAt]
        apply List.map_congr_left
        intro c hc
        have hcs : c.id ≠ s.id := by
          intro hc2
          apply hids.1
          rw [← hc2]
          exact List.mem_map_of_mem Column.id hc
        rw [if_neg hcs]
      rw [hmap, List.map_cons, List.flatten_cons]
      have step : List.Perm (((updateColsAt t.id g rest).map Column.taskIds).flatten)
          (a :: ((rest.map Column.taskIds).flatten)) :=
        flatten_updateColsAt_perm_cons t g a hg rest hids.2 htr
      have chain1 : List.Perm
          (f s.taskIds ++ ((updateColsAt t.id g rest).map Column.taskIds).flatten)
          (f s.taskIds ++ (a :: ((rest.map Column.taskIds).flatten))) :=
        step.append_left _
      have chain2 : List.Perm
          (f s.taskIds ++ (a :: ((rest.map Column.taskIds).flatten)))
          (a :: (f s.taskIds ++ (rest.map Column.taskIds).flatten)) :=
        List.perm_middle
      have chain3 : List.Perm
          (a :: (f s.taskIds ++ (rest.map Column.taskIds).flatten))
          (s.taskIds ++ (rest.map Column.taskIds).flatten) := by
        rw [hf]
        exact (filter_ne_perm s.taskIds a ha hnds).append_right _
      rw [List.map_cons, List.flatten_cons]
      exact (chain1.trans chain2).trans chain3
    · rcases List.mem_cons.1 ht with rfl | htr
      · rw [List.map_cons, if_neg (Ne.symm hst), if_pos rfl]
        have hmap : rest.map (fun c =>
            if c.id = s.id then { c with taskIds := f c.taskIds }
            else if c.id = t.id then { c with taskIds := g c.taskIds }
            else c) = updateColsAt s.id f rest := by
          rw [updateColsAt]
          apply List.map_congr_left
          intro c hc
          have hct : c.id ≠ t.id := by
            intro hc2
            apply hids.1
            rw [← hc2]
            exact List.mem_map_of_mem Column.id hc
          by_cases hcs : c.id = s.id
          · rw [if_pos hcs, if_pos hcs]
          · rw [if_neg hcs, if_neg hct, if_neg hcs]
        rw [hmap, List.map_cons, List.flatten_cons]
        have step : List.Perm
            (a :: (((updateColsAt s.id f rest).map Column.taskIds).flatten))
            ((rest.map Column.taskIds).flatten) :=
          flatten_updateColsAt_perm_filter s f a hf ha hnds rest hids.2 hsr
        have chain1 : List.Perm
            (g t.taskIds ++ ((updateColsAt s.id f rest).map Column.taskIds).flatten)
            ((a :: t.taskIds) ++ ((updateColsAt s.id f rest).map Column.taskIds).flatten) :=
          hg.append_right _
        have chain2 : List.Perm
            (a :: (t.taskIds ++ ((updateColsAt s.id f rest).map Column.taskIds).flatten))
            (t.taskIds ++ (a :: ((updateColsAt s.id f rest).map Column.taskIds).flatten)) :=
          List.perm_middle.symm
        have chain3 : List.Perm
            (t.taskIds ++ (a :: ((updateColsAt s.id f rest).map Column.taskIds).flatten))
            (t.taskIds ++ (rest.map Column.taskIds).flatten) :=
          step.append_left _
        rw [List.map_cons, List.flatten_cons]
        exact (chain1.trans chain2).trans chain3
      · have hds : d.id ≠ s.id := by
          intro hc2
          apply hids.1
          rw [hc2]
          exact List.mem_map_of_mem Column.id hsr
        have hdt : d.id ≠ t.id := by
          intro hc2
          apply hids.1
          rw [hc2]
          exact List.mem_map_of_mem Column.id htr
        rw [List.map_cons, if_neg hds, if_neg hdt]
        rw [List.map_cons, List.flatten_cons, List.map_cons, List.flatten_cons]
        exact (ih hids.2 hsr htr).append_left d.taskIds

theorem insertIdx_perm_cons (x : α) :
    ∀ (n : Nat) (l : List α), n ≤ l.length → List.Perm (List.insertIdx n x l) (x :: l) := by
  intro n
  induction n with
  | zero =>
    intro l _
    rw [List.insertIdx_zero]
  | succ n ih =>
    intro l hl
    cases l with
    | nil => simp at hl
    | cons h t =>
      rw [List.insertIdx_succ_cons]
      exact (List.Perm.cons h (ih t (Nat.le_of_succ_le_succ hl))).trans
        (List.Perm.swap x h t)

theorem insertIdx_prefix_length (x : α) :
    ∀ (l1 l2 : List α), List.insertIdx l1.length x (l1 ++ l2) = l1 ++ x :: l2 := by
  intro l1
  induction l1 with
  | nil =>
    intro l2
    rw [List.length_nil, List.nil_append, List.insertIdx_zero, List.nil_append]
  | cons h t ih =>
    intro l2
    rw [List.length_cons, List.cons_append, List.insertIdx_succ_cons, ih, List.cons_append]

/-- C2: in a board whose column holds exactly the tasks A, B, C in this order,
dropping A onto C (a same-column move with C as the reference task) dispatches
a board in which that column's sequence is B, C, A: the moved id is removed at
its old index and reinserted at the index the reference task had in the
original sequence, computed before removal. -/
theorem moveTask_same_column_after_last
    (b : Board) (col : Column) (A B C : String) (tA tC : Task)
    (hids : (b.columns.map Column.id).Nodup)
    (hcol : col ∈ b.columns)
    (hseq : col.taskIds = [A, B, C])
    (hAB : A ≠ B) (hAC : A ≠ C) (hBC : B ≠ C)
    (hA : jsGet b.tasks A = some tA) (hC : jsGet b.tasks C = some tC)
    (hAcol : tA.columnId = col.id) (hCcol : tC.columnId = col.id)
    (hCnotCol : ∀ c ∈ b.columns, c.id ≠ C) :
    handleDragEnd b { activeId := A, overId := some C } =
      some { b with columns := b.columns.map (fun c =>
        if c.id = col.id then { c with taskIds := [B, C, A] } else c) } := by
  have hfindC : b.columns.find? (fun c => c.id == C) = none :=
    find?_col_eq_none _ _ hCnotCol
  have hfindSrc : b.columns.find? (fun c => c.id == tA.columnId) = some col :=
    find?_col_of_mem _ hids col hcol _ hAcol.symm
  have hfindTgt : b.columns.find? (fun c => c.id == tC.columnId) = some col :=
    find?_col_of_mem _ hids col hcol _ hCcol.symm
  have hidxA : col.taskIds.indexOf A = 0 := by
    rw [hseq]
    exact List.indexOf_cons_self A [B, C]
  have hidxC : col.taskIds.indexOf C = 2 := by
    rw [hseq, List.indexOf_cons_ne _ hAC, List.indexOf_cons_ne _ hBC,
      List.indexOf_cons_self]
  have hmove : arrayMove col.taskIds 0 2 = [B, C, A] := by
    rw [hseq]
    rfl
  have hsame : tA.columnId = tC.columnId := by rw [hAcol, hCcol]
  simp only [handleDragEnd, hA, hfindC, hC, hfindSrc, hfindTgt]
  rw [if_pos hsame, hidxA, hidxC, hmove]

theorem moveTask_same_column_after_last_witness :
    handleDragEnd bABC { activeId := "A", overId := some "C" } =
      some { bABC with columns := bABC.columns.map (fun c =>
        if c.id = ({ id := "doing", title := "Doing", taskIds := ["A", "B", "C"] } : Column).id
        then { c with taskIds := ["B", "C", "A"] } else c) } :=
  moveTask_same_column_after_last bABC
    { id := "doing", title := "Doing", taskIds := ["A", "B", "C"] }
    "A" "B" "C" (mkTask "A" "doing") (mkTask "C" "doing")
    (by decide) (by decide) rfl (by decide) (by decide) (by decide)
    (by decide) (by decide) (by decide) (by decide) (by decide)

/-- C6 counterexample: moving a task id that is not in the snapshot does not
fail with an error; the handler silently dispatches nothing (the embedding
returns none, meaning no board update was sent) and the board stays as it is.
The handler has no error channel at all. -/
theorem moveTask_missing_counterexample :
    jsGet bTwo.tasks "ghost" = none ∧
    handleDragEnd bTwo { activeId := "ghost", overId := some "doing" } = none ∧
    jsGet bTwo.tasks "nope" = none ∧
    (∀ c ∈ bTwo.columns, c.id ≠ "nope") ∧
    handleDragEnd bTwo { activeId := "A", overId := some "nope" } = none := by
  decide

/-- C6 amended: when the dragged task id is unknown, or the drop reference id
is neither a column id nor a task id of the snapshot, the drag-end handler
dispatches no update at all: the board is left unchanged and no error of any
kind is raised. -/
theorem moveTask_missing_refs_noop (b : Board) (a : String) (o : Option String) :
    (jsGet b.tasks a = none → handleDragEnd b { activeId := a, overId := o } = none) ∧
    (∀ oid, o = some oid →
      b.columns.find? (fun c => c.id == oid) = none →
      jsGet b.tasks oid = none →
      handleDragEnd b { activeId := a, overId := o } = none) := by
  constructor
  · intro h
    cases o with
    | none => rfl
    | some oid => simp only [handleDragEnd, h]
  · intro oid ho hfind hover
    subst ho
    simp only [handleDragEnd, hfind, hover]
    cases jsGet b.tasks a <;> rfl

theorem moveTask_missing_refs_noop_witness :
    handleDragEnd bTwo { activeId := "A", overId := some "nope" } = none :=
  (moveTask_missing_refs_noop bTwo "A" (some "nope")).2 "nope" rfl
    (by decide) (by decide)

/-- C7 counterexample: addTask with an unknown column id neither fails with
NotFound nor leaves the snapshot unchanged: the handler validates nothing and
dispatches a board whose tasks map gained an orphan task anchored to the
nonexistent column, while no column sequence references it. -/
theorem addTask_unknown_column_counterexample :
    (∀ c ∈ bTwo.columns, c.id ≠ "nope") ∧
    (handleAddTask "N" "E" "ts" bTwo "nope" "Hello").columns = bTwo.columns ∧
    jsGet (handleAddTask "N" "E" "ts" bTwo "nope" "Hello").tasks "N" =
      some { id := "N", title := "Hello", description := "", startDate := "",
             endDate := "", columnId := "nope", tags := [],
             activityLog := [{ id := "E", timestamp := "ts", action := .created,
                               details := "Aufgabe wurde erstellt" }] } ∧
    handleAddTask "N" "E" "ts" bTwo "nope" "Hello" ≠ bTwo := by
  decide

/-- C7 amended: the engine handler performs no validation.  With an unknown
column id it still dispatches a changed board: the new task enters the tasks
map anchored to the nonexistent column and no column sequence changes.  Blank
titles are rejected only by the Column component, whose add-task handler
refuses to invoke the engine when the trimmed title is empty, leaving the
board untouched. -/
theorem addTask_no_validation (b : Board) (newId entryId ts cid title : String)
    (hcid : ∀ c ∈ b.columns, c.id ≠ cid) :
    ((handleAddTask newId entryId ts b cid title).columns = b.columns ∧
      jsGet (handleAddTask newId entryId ts b cid title).tasks newId =
        some { id := newId, title := title, description := "", startDate := "",
               endDate := "", columnId := cid, tags := [],
               activityLog := [{ id := entryId, timestamp := ts, action := .created,
                                 details := "Aufgabe wurde erstellt" }] }) ∧
    (jsTrimNonempty title = false →
      columnAddTask newId entryId ts b cid title = none) := by
  refine ⟨⟨?_, ?_⟩, ?_⟩
  · show b.columns.map (fun col =>
      if col.id = cid then { col with taskIds := col.taskIds ++ [newId] } else col) =
      b.columns
    have h0 : ∀ c ∈ b.columns,
        (if c.id = cid then { c with taskIds := c.taskIds ++ [newId] } else c) = id c := by
      intro c hc
      rw [if_neg (hcid c hc)]
      rfl
    rw [List.map_congr_left h0, List.map_id]
  · show jsGet (jsSet b.tasks newId _) newId = _
    rw [jsGet_jsSet, if_pos rfl]
  · intro hblank
    rw [columnAddTask, if_neg (by rw [hblank]; exact Bool.false_ne_true)]

theorem addTask_no_validation_witness :
    (handleAddTask "N" "E" "ts" bTwo "nope" "Hello").columns = bTwo.columns ∧
    columnAddTask "N2" "E2" "ts" bTwo "nope" "  " = none :=
  ⟨((addTask_no_validation bTwo "N" "E" "ts" "nope" "Hello" (by decide)).1).1,
    (addTask_no_validation bTwo "N2" "E2" "ts" "nope" "  " (by decide)).2 (by decide)⟩

/-- C9: deleteTask is idempotent: a second application with the same task id
returns the very same snapshot.  When the id is unknown the handler is a
no-op that returns the board unchanged rather than an error; when the id is
known (and not a temp- id) the task disappears from the tasks map and from
the sequence of its column. -/
theorem deleteTask_idempotent (b : Board) (taskId : String) :
    handleDeleteTask (handleDeleteTask b taskId) taskId = handleDeleteTask b taskId ∧
    (jsGet b.tasks taskId = none → handleDeleteTask b taskId = b) ∧
    (∀ tk, startsWithTemp taskId = false → jsGet b.tasks taskId = some tk →
      jsGet (handleDeleteTask b taskId).tasks taskId = none ∧
      ∀ c ∈ (handleDeleteTask b taskId).columns, c.id = tk.columnId →
        taskId ∉ c.taskIds) := by
  have key : ∀ b2 : Board, jsGet b2.tasks taskId = none →
      handleDeleteTask b2 taskId = b2 := by
    intro b2 h2
    by_cases ht : startsWithTemp taskId = true
    · rw [handleDeleteTask, if_pos ht]
    · rw [handleDeleteTask, if_neg ht, h2]
  refine ⟨?_, ?_, ?_⟩
  · by_cases htemp : startsWithTemp taskId = true
    · rw [handleDeleteTask, if_pos htemp, handleDeleteTask, if_pos htemp]
    · rcases hget : jsGet b.tasks taskId with _ | tk
      · have hinner : handleDeleteTask b taskId = b := key b hget
        rw [hinner]
        exact hinner
      · have hinner : handleDeleteTask b taskId = { b with
            columns := b.columns.map (fun col =>
              if col.id = tk.columnId then
                { col with taskIds := col.taskIds.filter (fun i => i != taskId) }
              else col),
            tasks := jsDelete b.tasks taskId } := by
          rw [handleDeleteTask, if_neg htemp, hget]
        rw [hinner]
        apply key
        show jsGet (jsDelete b.tasks taskId) taskId = none
        rw [jsGet_jsDelete, if_pos rfl]
  · exact key b
  · intro tk htemp hget
    constructor
    · rw [handleDeleteTask, if_neg (by rw [htemp]; exact Bool.false_ne_true), hget]
      show jsGet (jsDelete b.tasks taskId) taskId = none
      rw [jsGet_jsDelete, if_pos rfl]
    · intro c hc hcid
      rw [handleDeleteTask, if_neg (by rw [htemp]; exact Bool.false_ne_true), hget] at hc
      rcases List.mem_map.1 hc with ⟨c0, hc0, hc0eq⟩
      by_cases h0 : c0.id = tk.columnId
      · rw [if_pos h0] at hc0eq
        rw [← hc0eq]
        intro hmem
        rcases List.mem_filter.1 hmem with ⟨_, hne⟩
        simp at hne
      · rw [if_neg h0] at hc0eq
        rw [← hc0eq] at hcid
        exact absurd hcid h0

theorem deleteTask_idempotent_witness :
    handleDeleteTask (handleDeleteTask bABC "A") "A" = handleDeleteTask bABC "A" ∧
    jsGet (handleDeleteTask bABC "A").tasks "A" = none :=
  ⟨(deleteTask_idempotent bABC "A").1,
    ((deleteTask_idempotent bABC "A").2.2 (mkTask "A" "doing") (by decide) (by decide)).1⟩

/-- C5: addTask on an existing column dispatches a board in which a new task
with empty description, dates and tags, columnId set to the given column, and
a single created activity entry is stored in the tasks map and appended to the
end of that column's sequence; every other column and every previously stored
task is unchanged. -/
theorem addTask_appends (b : Board) (col : Column) (newId entryId ts title : String)
    (hcol : col ∈ b.columns)
    (hfresh : newId ∉ keys b.tasks)
    (hblank : jsTrimNonempty title = true) :
    (jsGet (handleAddTask newId entryId ts b col.id title).tasks newId =
      some { id := newId, title := title, description := "", startDate := "",
             endDate := "", columnId := col.id, tags := [],
             activityLog := [{ id := entryId, timestamp := ts, action := .created,
                               details := "Aufgabe wurde erstellt" }] }) ∧
    (∀ k, k ∈ keys b.tasks →
      jsGet (handleAddTask newId entryId ts b col.id title).tasks k = jsGet b.tasks k) ∧
    List.Forall₂ (fun c c2 => c2.id = c.id ∧ c2.title = c.title ∧
        c2.taskIds = (if c.id = col.id then c.taskIds ++ [newId] else c.taskIds))
      b.columns (handleAddTask newId entryId ts b col.id title).columns := by
  refine ⟨?_, ?_, ?_⟩
  · show jsGet (jsSet b.tasks newId _) newId = _
    rw [jsGet_jsSet, if_pos rfl]
  · intro k hk
    show jsGet (jsSet b.tasks newId _) k = _
    rw [jsGet_jsSet, if_neg (fun h : k = newId => hfresh (h ▸ hk))]
  · show List.Forall₂ _ b.columns (b.columns.map _)
    rw [List.forall₂_map_right_iff, List.forall₂_same]
    intro c _
    by_cases h : c.id = col.id
    · rw [if_pos h, if_pos h]
      exact ⟨rfl, rfl, rfl⟩
    · rw [if_neg h, if_neg h]
      exact ⟨rfl, rfl, rfl⟩

theorem addTask_appends_witness :
    jsGet (handleAddTask "N" "E" "ts" bTwo "done" "Write spec").tasks "N" =
      some { id := "N", title := "Write spec", description := "", startDate := "",
             endDate := "", columnId := "done", tags := [],
             activityLog := [{ id := "E", timestamp := "ts", action := .created,
                               details := "Aufgabe wurde erstellt" }] } :=
  (addTask_appends bTwo { id := "done", title := "Done", taskIds := [] }
    "N" "E" "ts" "Write spec" (by decide) (by decide) (by decide)).1

/-- C8: deleteColumn on an existing column id dispatches a board whose tasks
map no longer contains any id of the column's sequence, whose columns no
longer contain a column with that id, and in which the remaining columns and
every task outside the deleted sequence are unchanged. -/
theorem deleteColumn_cascades (b : Board) (col : Column) (cid : String)
    (hids : (b.columns.map Column.id).Nodup)
    (hcol : col ∈ b.columns) (hcid : col.id = cid) :
    ∃ b2, handleDeleteColumn b cid = some b2 ∧
      (∀ x ∈ col.taskIds, jsGet b2.tasks x = none) ∧
      (∀ c ∈ b2.columns, c.id ≠ cid) ∧
      b2.columns = b.columns.filter (fun c => c.id != cid) ∧
      (∀ k, k ∉ col.taskIds → jsGet b2.tasks k = jsGet b.tasks k) := by
  have hfind : b.columns.find? (fun c => c.id == cid) = some col :=
    find?_col_of_mem _ hids col hcol _ hcid
  refine ⟨{ b with
      columns := b.columns.filter (fun c => c.id != cid),
      tasks := col.taskIds.foldl (fun m tid => jsDelete m tid) b.tasks }, ?_, ?_, ?_, rfl, ?_⟩
  · rw [handleDeleteColumn, hfind]
  · intro x hx
    show jsGet (col.taskIds.foldl (fun m tid => jsDelete m tid) b.tasks) x = none
    rw [jsGet_foldl_jsDelete, if_pos hx]
  · intro c hc
    rcases List.mem_filter.1 hc with ⟨_, hne⟩
    simpa using hne
  · intro k hk
    show jsGet (col.taskIds.foldl (fun m tid => jsDelete m tid) b.tasks) k = _
    rw [jsGet_foldl_jsDelete, if_neg hk]

/-- C3: a move whose destination resolves to a different column removes the
task id from the source column's sequence, inserts it into the destination
column's sequence (at the end when the drop target is the column itself;
directly at the reference task's position when the drop target is a task of
that column), rewrites the moved task's columnId to the destination column's
id, and leaves every other column and every other task unchanged. -/
theorem moveTask_cross_column (b : Board) (sCol tCol : Column) (taskId : String)
    (tk : Task)
    (hids : (b.columns.map Column.id).Nodup)
    (hs : sCol ∈ b.columns) (ht : tCol ∈ b.columns)
    (hst : sCol.id ≠ tCol.id)
    (htk : jsGet b.tasks taskId = some tk)
    (htkcol : tk.columnId = sCol.id) :
    (∃ b2, handleDragEnd b { activeId := taskId, overId := some tCol.id } = some b2 ∧
      jsGet b2.tasks taskId = some { tk with columnId := tCol.id } ∧
      (∀ k, k ≠ taskId → jsGet b2.tasks k = jsGet b.tasks k) ∧
      List.Forall₂ (fun c c2 => c2.id = c.id ∧ c2.title = c.title ∧
          c2.taskIds = (if c.id = sCol.id then c.taskIds.filter (fun i => i != taskId)
                        else if c.id = tCol.id then c.taskIds ++ [taskId]
                        else c.taskIds)) b.columns b2.columns) ∧
    (∀ refId tk2 l1 l2, jsGet b.tasks refId = some tk2 → tk2.columnId = tCol.id →
      (∀ c ∈ b.columns, c.id ≠ refId) →
      tCol.taskIds = l1 ++ refId :: l2 → refId ∉ l1 →
      ∃ b2, handleDragEnd b { activeId := taskId, overId := some refId } = some b2 ∧
        jsGet b2.tasks taskId = some { tk with columnId := tCol.id } ∧
        (∀ k, k ≠ taskId → jsGet b2.tasks k = jsGet b.tasks k) ∧
        List.Forall₂ (fun c c2 => c2.id = c.id ∧ c2.title = c.title ∧
            c2.taskIds = (if c.id = sCol.id then c.taskIds.filter (fun i => i != taskId)
                          else if c.id = tCol.id then l1 ++ taskId :: refId :: l2
                          else c.taskIds)) b.columns b2.columns) := by
  have hfindS : b.columns.find? (fun c => c.id == tk.columnId) = some sCol :=
    find?_col_of_mem _ hids sCol hs _ htkcol.symm
  constructor
  · have hfindT : b.columns.find? (fun c => c.id == tCol.id) = some tCol :=
      find?_col_of_mem _ hids tCol ht _ rfl
    simp only [handleDragEnd, htk, hfindT, hfindS]
    rw [if_pos hst]
    refine ⟨_, rfl, ?_, ?_, ?_⟩
    · show jsGet (jsSet b.tasks taskId _) taskId = _
      rw [jsGet_jsSet, if_pos rfl]
    · intro k hk
      show jsGet (jsSet b.tasks taskId _) k = _
      rw [jsGet_jsSet, if_neg hk]
    · show List.Forall₂ _ b.columns (b.columns.map _)
      rw [List.forall₂_map_right_iff, List.forall₂_same]
      intro c _
      by_cases h1 : c.id = sCol.id
      · rw [if_pos h1, if_pos h1]
        exact ⟨rfl, rfl, rfl⟩
      · by_cases h2 : c.id = tCol.id
        · rw [if_neg h1, if_pos h2, if_neg h1, if_pos h2]
          exact ⟨rfl, rfl, rfl⟩
        · rw [if_neg h1, if_neg h2, if_neg h1, if_neg h2]
          exact ⟨rfl, rfl, rfl⟩
  · intro refId tk2 l1 l2 href htk2col hrefNotCol hdecomp hrefl1
    have hfindRef : b.columns.find? (fun c => c.id == refId) = none :=
      find?_col_eq_none _ _ hrefNotCol
    have hfindT2 : b.columns.find? (fun c => c.id == tk2.columnId) = some tCol :=
      find?_col_of_mem _ hids tCol ht _ htk2col.symm
    have hcc : ¬(tk.columnId = tk2.columnId) := by
      rw [htkcol, htk2col]
      exact hst
    have hidx : tCol.taskIds.indexOf refId = l1.length := by
      rw [hdecomp, List.indexOf_append_of_not_mem hrefl1, List.indexOf_cons_self,
        Nat.add_zero]
    have hins : List.insertIdx (tCol.taskIds.indexOf refId) taskId tCol.taskIds =
        l1 ++ taskId :: refId :: l2 := by
      rw [hidx, hdecomp, insertIdx_prefix_length]
    simp only [handleDragEnd, htk, hfindRef, href, hfindS, hfindT2]
    rw [if_neg hcc, hins]
    refine ⟨_, rfl, ?_, ?_, ?_⟩
    · show jsGet (jsSet b.tasks taskId _) taskId = _
      rw [jsGet_jsSet, if_pos rfl]
    · intro k hk
      show jsGet (jsSet b.tasks taskId _) k = _
      rw [jsGet_jsSet, if_neg hk]
    · show List.Forall₂ _ b.columns (b.columns.map _)
      rw [List.forall₂_map_right_iff, List.forall₂_same]
      intro c hc
      by_cases h1 : c.id = sCol.id
      · rw [if_pos h1, if_pos h1]
        refine ⟨rfl, rfl, ?_⟩
        have hcs : c = sCol :=
          List.inj_on_of_nodup_map hids hc hs (by rw [h1])
        rw [hcs]
      · by_cases h2 : c.id = tCol.id
        · rw [if_neg h1, if_pos h2, if_neg h1, if_pos h2]
          exact ⟨rfl, rfl, rfl⟩
        · rw [if_neg h1, if_neg h2, if_neg h1, if_neg h2]
          exact ⟨rfl, rfl, rfl⟩

theorem moveTask_cross_column_witness :
    (∃ b2, handleDragEnd bTwo { activeId := "A", overId := some "done" } = some b2 ∧
      jsGet b2.tasks "A" = some { mkTask "A" "doing" with columnId := "done" } ∧
      (∀ k, k ≠ "A" → jsGet b2.tasks k = jsGet bTwo.tasks k) ∧
      List.Forall₂ (fun c c2 => c2.id = c.id ∧ c2.title = c.title ∧
          c2.taskIds = (if c.id = "doing" then c.taskIds.filter (fun i => i != "A")
                        else if c.id = "done" then c.taskIds ++ ["A"]
                        else c.taskIds)) bTwo.columns b2.columns) :=
  (moveTask_cross_column bTwo { id := "doing", title := "Doing", taskIds := ["A"] }
    { id := "done", title := "Done", taskIds := [] } "A" (mkTask "A" "doing")
    (by decide) (by decide) (by decide) (by decide) (by decide) (by decide)).1

theorem deleteColumn_cascades_witness :
    ∃ b2, handleDeleteColumn bXY "backlog" = some b2 ∧
      (∀ x ∈ (["X", "Y"] : List String), jsGet b2.tasks x = none) ∧
      (∀ c ∈ b2.columns, c.id ≠ "backlog") ∧
      b2.columns = bXY.columns.filter (fun c => c.id != "backlog") ∧
      (∀ k, k ∉ (["X", "Y"] : List String) → jsGet b2.tasks k = jsGet bXY.tasks k) :=
  deleteColumn_cascades bXY { id := "backlog", title := "Backlog", taskIds := ["X", "Y"] }
    "backlog" (by decide) (by decide) (by decide)

theorem mem_titleEntries_action (gid ts : String) (t : Task) (u : TaskUpdates)
    (e : ActivityLogEntry) (he : e ∈ titleEntries gid ts t u) :
    e.action = .title_changed := by
  rcases hu : u.title with _ | v
  · simp only [titleEntries, hu] at he
    exact absurd he (List.not_mem_nil e)
  · simp only [titleEntries, hu] at he
    by_cases hv : v = t.title
    · rw [if_pos hv] at he
      exact absurd he (List.not_mem_nil e)
    · rw [if_neg hv] at he
      rcases List.mem_cons.1 he with rfl | h
      · rfl
      · exact absurd h (List.not_mem_nil e)

theorem mem_descriptionEntries_action (gid ts : String) (t : Task) (u : TaskUpdates)
    (e : ActivityLogEntry) (he : e ∈ descriptionEntries gid ts t u) :
    e.action = .description_changed := by
  rcases hu : u.description with _ | v
  · simp only [descriptionEntries, hu] at he
    exact absurd he (List.not_mem_nil e)
  · simp only [descriptionEntries, hu] at he
    by_cases hv : v = t.description
    · rw [if_pos hv] at he
      exact absurd he (List.not_mem_nil e)
    · rw [if_neg hv] at he
      rcases List.mem_cons.1 he with rfl | h
      · rfl
      · exact absurd h (List.not_mem_nil e)

theorem mem_startDateEntries_action (gid ts : String) (t : Task) (u : TaskUpdates)
    (e : ActivityLogEntry) (he : e ∈ startDateEntries gid ts t u) :
    e.action = .dates_changed := by
  rcases hu : u.startDate with _ | v
  · simp only [startDateEntries, hu] at he
    exact absurd he (List.not_mem_nil e)
  · simp only [startDateEntries, hu] at he
    by_cases hv : v = t.startDate
    · rw [if_pos hv] at he
      exact absurd he (List.not_mem_nil e)
    · rw [if_neg hv] at he
      rcases List.mem_cons.1 he with rfl | h
      · rfl
      · exact absurd h (List.not_mem_nil e)

theorem mem_endDateEntries_action (gid ts : String) (t : Task) (u : TaskUpdates)
    (e : ActivityLogEntry) (he : e ∈ endDateEntries gid ts t u) :
    e.action = .dates_changed := by
  rcases hu : u.endDate with _ | v
  · simp only [endDateEntries, hu] at he
    exact absurd he (List.not_mem_nil e)
  · simp only [endDateEntries, hu] at he
    by_cases hv : v = t.endDate
    · rw [if_pos hv] at he
      exact absurd he (List.not_mem_nil e)
    · rw [if_neg hv] at he
      rcases List.mem_cons.1 he with rfl | h
      · rfl
      · exact absurd h (List.not_mem_nil e)

theorem mem_columnEntries_action (gid ts : String) (cols : List Column) (t : Task)
    (u : TaskUpdates) (e : ActivityLogEntry) (he : e ∈ columnEntries gid ts cols t u) :
    e.action = .column_changed := by
  rcases hu : u.columnId with _ | v
  · simp only [columnEntries, hu] at he
    exact absurd he (List.not_mem_nil e)
  · simp only [columnEntries, hu] at he
    by_cases hv : v = t.columnId
    · rw [if_pos hv] at he
      exact absurd he (List.not_mem_nil e)
    · rw [if_neg hv] at he
      rcases List.mem_cons.1 he with rfl | h
      · rfl
      · exact absurd h (List.not_mem_nil e)

theorem mem_tagsEntries_action (gid ts : String) (t : Task) (u : TaskUpdates)
    (e : ActivityLogEntry) (he : e ∈ tagsEntries gid ts t u) :
    e.action = .tags_changed := by
  rcases hu : u.tags with _ | v
  · simp only [tagsEntries, hu] at he
    exact absurd he (List.not_mem_nil e)
  · simp only [tagsEntries, hu] at he
    by_cases hv : v = t.tags
    · rw [if_pos hv] at he
      exact absurd he (List.not_mem_nil e)
    · rw [if_neg hv] at he
      rcases List.mem_cons.1 he with rfl | h
      · rfl
      · exact absurd h (List.not_mem_nil e)

theorem mem_priorityEntries_action (gid ts : String) (t : Task) (u : TaskUpdates)
    (e : ActivityLogEntry) (he : e ∈ priorityEntries gid ts t u) :
    e.action = .priority_changed := by
  rcases hu : u.priority with _ | p
  · simp only [priorityEntries, hu] at he
    exact absurd he (List.not_mem_nil e)
  · simp only [priorityEntries, hu] at he
    by_cases hv : t.priority = some p
    · rw [if_pos hv] at he
      exact absurd he (List.not_mem_nil e)
    · rw [if_neg hv] at he
      rcases List.mem_cons.1 he with rfl | h
      · rfl
      · exact absurd h (List.not_mem_nil e)

theorem mem_membersEntries_action (gid ts : String) (am : List TeamMember) (t : Task)
    (u : TaskUpdates) (e : ActivityLogEntry) (he : e ∈ membersEntries gid ts am t u) :
    e.action = .tags_changed := by
  rcases hu : u.assignedMembers with _ | v
  · simp only [membersEntries, hu] at he
    exact absurd he (List.not_mem_nil e)
  · simp only [membersEntries, hu] at he
    by_cases hv : v = t.assignedMembers.getD []
    · rw [if_pos hv] at he
      exact absurd he (List.not_mem_nil e)
    · rw [if_neg hv] at he
      rcases List.mem_cons.1 he with rfl | h
      · rfl
      · exact absurd h (List.not_mem_nil e)

theorem length_titleEntries (gid ts : String) (t : Task) (u : TaskUpdates) :
    (titleEntries gid ts t u).length = if titleDiff t u then 1 else 0 := by
  rcases hu : u.title with _ | v
  · simp [titleEntries, titleDiff, hu]
  · by_cases hv : v = t.title
    · simp [titleEntries, titleDiff, hu, hv]
    · simp [titleEntries, titleDiff, hu, hv]

theorem length_descriptionEntries (gid ts : String) (t : Task) (u : TaskUpdates) :
    (descriptionEntries gid ts t u).length = if descriptionDiff t u then 1 else 0 := by
  rcases hu : u.description with _ | v
  · simp [descriptionEntries, descriptionDiff, hu]
  · by_cases hv : v = t.description
    · simp [descriptionEntries, descriptionDiff, hu, hv]
    · simp [descriptionEntries, descriptionDiff, hu, hv]

theorem length_startDateEntries (gid ts : String) (t : Task) (u : TaskUpdates) :
    (startDateEntries gid ts t u).length = if startDateDiff t u then 1 else 0 := by
  rcases hu : u.startDate with _ | v
  · simp [startDateEntries, startDateDiff, hu]
  · by_cases hv : v = t.startDate
    · simp [startDateEntries, startDateDiff, hu, hv]
    · simp [startDateEntries, startDateDiff, hu, hv]

theorem length_endDateEntries (gid ts : String) (t : Task) (u : TaskUpdates) :
    (endDateEntries gid ts t u).length = if endDateDiff t u then 1 else 0 := by
  rcases hu : u.endDate with _ | v
  · simp [endDateEntries, endDateDiff, hu]
  · by_cases hv : v = t.endDate
    · simp [endDateEntries, endDateDiff, hu, hv]
    · simp [endDateEntries, endDateDiff, hu, hv]

theorem length_columnEntries (gid ts : String) (cols : List Column) (t : Task)
    (u : TaskUpdates) :
    (columnEntries gid ts cols t u).length = if columnDiff t u then 1 else 0 := by
  rcases hu : u.columnId with _ | v
  · simp [columnEntries, columnDiff, hu]
  · by_cases hv : v = t.columnId
    · simp [columnEntries, columnDiff, hu, hv]
    · simp [columnEntries, columnDiff, hu, hv]

theorem length_tagsEntries (gid ts : String) (t : Task) (u : TaskUpdates) :
    (tagsEntries gid ts t u).length = if tagsDiff t u then 1 else 0 := by
  rcases hu : u.tags with _ | v
  · simp [tagsEntries, tagsDiff, hu]
  · by_cases hv : v = t.tags
    · simp [tagsEntries, tagsDiff, hu, hv]
    · simp [tagsEntries, tagsDiff, hu, hv]

theorem length_priorityEntries (gid ts : String) (t : Task) (u : TaskUpdates) :
    (priorityEntries gid ts t u).length = if priorityDiff t u then 1 else 0 := by
  rcases hu : u.priority with _ | p
  · simp [priorityEntries, priorityDiff, hu]
  · by_cases hv : t.priority = some p
    · simp [priorityEntries, priorityDiff, hu, hv]
    · simp [priorityEntries, priorityDiff, hu, hv]

theorem length_membersEntries (gid ts : String) (am : List TeamMember) (t : Task)
    (u : TaskUpdates) :
    (membersEntries gid ts am t u).length = if membersDiff t u then 1 else 0 := by
  rcases hu : u.assignedMembers with _ | v
  · simp [membersEntries, membersDiff, hu]
  · by_cases hv : v = t.assignedMembers.getD []
    · simp [membersEntries, membersDiff, hu, hv]
    · simp [membersEntries, membersDiff, hu, hv]

theorem countP_eq_length_action (l : List ActivityLogEntry) (A : LogAction)
    (h : ∀ e, e ∈ l → e.action = A) :
    l.countP (fun e => e.action == A) = l.length := by
  rw [List.countP_eq_length]
  intro e he
  rw [h e he]
  simp

theorem countP_eq_zero_action (l : List ActivityLogEntry) (A B : LogAction)
    (hAB : ¬A = B) (h : ∀ e, e ∈ l → e.action = A) :
    l.countP (fun e => e.action == B) = 0 := by
  rw [List.countP_eq_zero]
  intro e he
  rw [h e he]
  simp [hAB]

theorem countP_titleEntries (gid ts : String) (t : Task) (u : TaskUpdates)
    (A : LogAction) :
    (titleEntries gid ts t u).countP (fun e => e.action == A) =
      if A = .title_changed then (if titleDiff t u then 1 else 0) else 0 := by
  by_cases hA : A = .title_changed
  · rw [if_pos hA, hA,
      countP_eq_length_action _ _ (mem_titleEntries_action gid ts t u),
      length_titleEntries]
  · rw [if_neg hA]
    exact countP_eq_zero_action _ _ _ (fun h => hA h.symm)
      (mem_titleEntries_action gid ts t u)

theorem countP_descriptionEntries (gid ts : String) (t : Task) (u : TaskUpdates)
    (A : LogAction) :
    (descriptionEntries gid ts t u).countP (fun e => e.action == A) =
      if A = .description_changed then (if descriptionDiff t u then 1 else 0) else 0 := by
  by_cases hA : A = .description_changed
  · rw [if_pos hA, hA,
      countP_eq_length_action _ _ (mem_descriptionEntries_action gid ts t u),
      length_descriptionEntries]
  · rw [if_neg hA]
    exact countP_eq_zero_action _ _ _ (fun h => hA h.symm)
      (mem_descriptionEntries_action gid ts t u)

theorem countP_startDateEntries (gid ts : String) (t : Task) (u : TaskUpdates)
    (A : LogAction) :
    (startDateEntries gid ts t u).countP (fun e => e.action == A) =
      if A = .dates_changed then (if startDateDiff t u then 1 else 0) else 0 := by
  by_cases hA : A = .dates_changed
  · rw [if_pos hA, hA,
      countP_eq_length_action _ _ (mem_startDateEntries_action gid ts t u),
      length_startDateEntries]
  · rw [if_neg hA]
    exact countP_eq_zero_action _ _ _ (fun h => hA h.symm)
      (mem_startDateEntries_action gid ts t u)

theorem countP_endDateEntries (gid ts : String) (t : Task) (u : TaskUpdates)
    (A : LogAction) :
    (endDateEntries gid ts t u).countP (fun e => e.action == A) =
      if A = .dates_changed then (if endDateDiff t u then 1 else 0) else 0 := by
  by_cases hA : A = .dates_changed
  · rw [if_pos hA, hA,
      countP_eq_length_action _ _ (mem_endDateEntries_action gid ts t u),
      length_endDateEntries]
  · rw [if_neg hA]
    exact countP_eq_zero_action _ _ _ (fun h => hA h.symm)
      (mem_endDateEntries_action gid ts t u)

theorem countP_columnEntries (gid ts : String) (cols : List Column) (t : Task)
    (u : TaskUpdates) (A : LogAction) :
    (columnEntries gid ts cols t u).countP (fun e => e.action == A) =
      if A = .column_changed then (if columnDiff t u then 1 else 0) else 0 := by
  by_cases hA : A = .column_changed
  · rw [if_pos hA, hA,
      countP_eq_length_action _ _ (mem_columnEntries_action gid ts cols t u),
      length_columnEntries]
  · rw [if_neg hA]
    exact countP_eq_zero_action _ _ _ (fun h => hA h.symm)
      (mem_columnEntries_action gid ts cols t u)

theorem countP_tagsEntries (gid ts : String) (t : Task) (u : TaskUpdates)
    (A : LogAction) :
    (tagsEntries gid ts t u).countP (fun e => e.action == A) =
      if A = .tags_changed then (if tagsDiff t u then 1 else 0) else 0 := by
  by_cases hA : A = .tags_changed
  · rw [if_pos hA, hA,
      countP_eq_length_action _ _ (mem_tagsEntries_action gid ts t u),
      length_tagsEntries]
  · rw [if_neg hA]
    exact countP_eq_zero_action _ _ _ (fun h => hA h.symm)
      (mem_tagsEntries_action gid ts t u)

theorem countP_priorityEntries (gid ts : String) (t : Task) (u : TaskUpdates)
    (A : LogAction) :
    (priorityEntries gid ts t u).countP (fun e => e.action == A) =
      if A = .priority_changed then (if priorityDiff t u then 1 else 0) else 0 := by
  by_cases hA : A = .priority_changed
  · rw [if_pos hA, hA,
      countP_eq_length_action _ _ (mem_priorityEntries_action gid ts t u),
      length_priorityEntries]
  · rw [if_neg hA]
    exact countP_eq_zero_action _ _ _ (fun h => hA h.symm)
      (mem_priorityEntries_action gid ts t u)

theorem countP_membersEntries (gid ts : String) (am : List TeamMember) (t : Task)
    (u : TaskUpdates) (A : LogAction) :
    (membersEntries gid ts am t u).countP (fun e => e.action == A) =
      if A = .tags_changed then (if membersDiff t u then 1 else 0) else 0 := by
  by_cases hA : A = .tags_changed
  · rw [if_pos hA, hA,
      countP_eq_length_action _ _ (mem_membersEntries_action gid ts am t u),
      length_membersEntries]
  · rw [if_neg hA]
    exact countP_eq_zero_action _ _ _ (fun h => hA h.symm)
      (mem_membersEntries_action gid ts am t u)

theorem updLogEntries_counts (gen : Nat → String) (ts : String) (cols : List Column)
    (am : List TeamMember) (t : Task) (u : TaskUpdates) :
    ((updLogEntries gen ts cols am t u).countP (fun e => e.action == .title_changed) =
        if titleDiff t u then 1 else 0) ∧
    ((updLogEntries gen ts cols am t u).countP (fun e => e.action == .description_changed) =
        if descriptionDiff t u then 1 else 0) ∧
    ((updLogEntries gen ts cols am t u).countP (fun e => e.action == .dates_changed) =
        (if startDateDiff t u then 1 else 0) + (if endDateDiff t u then 1 else 0)) ∧
    ((updLogEntries gen ts cols am t u).countP (fun e => e.action == .column_changed) =
        if columnDiff t u then 1 else 0) ∧
    ((updLogEntries gen ts cols am t u).countP (fun e => e.action == .tags_changed) =
        (if tagsDiff t u then 1 else 0) + (if membersDiff t u then 1 else 0)) ∧
    ((updLogEntries gen ts cols am t u).countP (fun e => e.action == .priority_changed) =
        if priorityDiff t u then 1 else 0) ∧
    ((updLogEntries gen ts cols am t u).countP (fun e => e.action == .created) = 0) := by
  refine ⟨?_, ?_, ?_, ?_, ?_, ?_, ?_⟩ <;>
    · simp only [updLogEntries, List.countP_append, countP_titleEntries,
        countP_descriptionEntries, countP_startDateEntries, countP_endDateEntries,
        countP_columnEntries, countP_tagsEntries, countP_priorityEntries,
        countP_membersEntries]
      simp

theorem mem_titleEntries_eq (gid ts : String) (t : Task) (u : TaskUpdates)
    (e : ActivityLogEntry) (he : e ∈ titleEntries gid ts t u) :
    ∃ v, u.title = some v ∧ ¬v = t.title ∧
      e.oldValue = some (.str t.title) ∧ e.newValue = some (.str v) := by
  rcases hu : u.title with _ | v
  · simp only [titleEntries, hu] at he
    exact absurd he (List.not_mem_nil e)
  · simp only [titleEntries, hu] at he
    by_cases hv : v = t.title
    · rw [if_pos hv] at he
      exact absurd he (List.not_mem_nil e)
    · rw [if_neg hv] at he
      rcases List.mem_cons.1 he with rfl | h
      · exact ⟨v, rfl, hv, rfl, rfl⟩
      · exact absurd h (List.not_mem_nil e)

theorem updLog_title_values (gen : Nat → String) (ts : String) (cols : List Column)
    (am : List TeamMember) (t : Task) (u : TaskUpdates) (v : String)
    (hu : u.title = some v) (e : ActivityLogEntry)
    (he : e ∈ updLogEntries gen ts cols am t u)
    (ha : e.action = .title_changed) :
    e.oldValue = some (.str t.title) ∧ e.newValue = some (.str v) := by
  simp only [updLogEntries] at he
  rcases List.mem_append.1 he with he | h8
  swap
  · rw [mem_membersEntries_action _ _ _ _ _ _ h8] at ha
    cases ha
  rcases List.mem_append.1 he with he | h7
  swap
  · rw [mem_priorityEntries_action _ _ _ _ _ h7] at ha
    cases ha
  rcases List.mem_append.1 he with he | h6
  swap
  · rw [mem_tagsEntries_action _ _ _ _ _ h6] at ha
    cases ha
  rcases List.mem_append.1 he with he | h5
  swap
  · rw [mem_columnEntries_action _ _ _ _ _ _ h5] at ha
    cases ha
  rcases List.mem_append.1 he with he | h4
  swap
  · rw [mem_endDateEntries_action _ _ _ _ _ h4] at ha
    cases ha
  rcases List.mem_append.1 he with he | h3
  swap
  · rw [mem_startDateEntries_action _ _ _ _ _ h3] at ha
    cases ha
  rcases List.mem_append.1 he with h1 | h2
  swap
  · rw [mem_descriptionEntries_action _ _ _ _ _ h2] at ha
    cases ha
  rcases mem_titleEntries_eq _ _ _ _ _ h1 with ⟨v2, hv2, _, ho, hn⟩
  rw [hu] at hv2
  cases Option.some.inj hv2
  exact ⟨ho, hn⟩

theorem updateTask_logs_core (gen : Nat → String) (ts : String) (ntc : Option String)
    (am : List TeamMember) (b : Board) (taskId : String) (u : TaskUpdates) (tk : Task)
    (htemp : startsWithTemp taskId = false)
    (htk : jsGet b.tasks taskId = some tk) :
    ∃ b2 tk2, handleUpdateTask gen ts ntc am b taskId u = some b2 ∧
      jsGet b2.tasks taskId = some tk2 ∧
      tk2.title = u.title.getD tk.title ∧
      ∃ es, tk2.activityLog = tk.activityLog ++ es ∧
        (es.countP (fun e => e.action == .title_changed) =
          if titleDiff tk u then 1 else 0) ∧
        (es.countP (fun e => e.action == .description_changed) =
          if descriptionDiff tk u then 1 else 0) ∧
        (es.countP (fun e => e.action == .dates_changed) =
          (if startDateDiff tk u then 1 else 0) + (if endDateDiff tk u then 1 else 0)) ∧
        (es.countP (fun e => e.action == .column_changed) =
          if columnDiff tk u then 1 else 0) ∧
        (es.countP (fun e => e.action == .tags_changed) =
          (if tagsDiff tk u then 1 else 0) + (if membersDiff tk u then 1 else 0)) ∧
        (es.countP (fun e => e.action == .priority_changed) =
          if priorityDiff tk u then 1 else 0) ∧
        (es.countP (fun e => e.action == .created) = 0) ∧
        (∀ v, u.title = some v → ∀ e ∈ es, e.action = .title_changed →
          e.oldValue = some (.str tk.title) ∧ e.newValue = some (.str v)) := by
  simp only [handleUpdateTask, htk]
  rw [if_neg (by rw [htemp]; exact Bool.false_ne_true)]
  refine ⟨_, { applyUpdates tk u with
      activityLog := tk.activityLog ++ updLogEntries gen ts b.columns am tk u },
    rfl, ?_, rfl, updLogEntries gen ts b.columns am tk u, rfl,
    (updLogEntries_counts gen ts b.columns am tk u).1,
    (updLogEntries_counts gen ts b.columns am tk u).2.1,
    (updLogEntries_counts gen ts b.columns am tk u).2.2.1,
    (updLogEntries_counts gen ts b.columns am tk u).2.2.2.1,
    (updLogEntries_counts gen ts b.columns am tk u).2.2.2.2.1,
    (updLogEntries_counts gen ts b.columns am tk u).2.2.2.2.2.1,
    (updLogEntries_counts gen ts b.columns am tk u).2.2.2.2.2.2,
    fun v hv e he ha => updLog_title_values gen ts b.columns am tk u v hv e he ha⟩
  show jsGet (jsSet b.tasks taskId _) taskId = _
  rw [jsGet_jsSet, if_pos rfl]

/-- C4: updateTask on a stored task appends, per patch field whose value
differs from the stored one, exactly one activity entry with the action of
that field's category: title_changed, description_changed, one dates_changed
each for startDate and endDate, column_changed, tags_changed, priority_changed,
and tags_changed again for assignedMembers.  Unchanged or absent fields append
nothing, no created entry is appended, a changed title yields an entry whose
oldValue is the stored title and whose newValue is the patch title, and the
stored task's title becomes the patch title. -/
theorem updateTask_logs (gen : Nat → String) (ts : String) (ntc : Option String)
    (am : List TeamMember) (b : Board) (taskId : String) (u : TaskUpdates) (tk : Task)
    (htemp : startsWithTemp taskId = false)
    (htk : jsGet b.tasks taskId = some tk) :
    ∃ b2 tk2, handleUpdateTask gen ts ntc am b taskId u = some b2 ∧
      jsGet b2.tasks taskId = some tk2 ∧
      tk2.title = u.title.getD tk.title ∧
      ∃ es, tk2.activityLog = tk.activityLog ++ es ∧
        (es.countP (fun e => e.action == .title_changed) =
          if titleDiff tk u then 1 else 0) ∧
        (es.countP (fun e => e.action == .description_changed) =
          if descriptionDiff tk u then 1 else 0) ∧
        (es.countP (fun e => e.action == .dates_changed) =
          (if startDateDiff tk u then 1 else 0) + (if endDateDiff tk u then 1 else 0)) ∧
        (es.countP (fun e => e.action == .column_changed) =
          if columnDiff tk u then 1 else 0) ∧
        (es.countP (fun e => e.action == .tags_changed) =
          (if tagsDiff tk u then 1 else 0) + (if membersDiff tk u then 1 else 0)) ∧
        (es.countP (fun e => e.action == .priority_changed) =
          if priorityDiff tk u then 1 else 0) ∧
        (es.countP (fun e => e.action == .created) = 0) ∧
        (∀ v, u.title = some v → ∀ e ∈ es, e.action = .title_changed →
          e.oldValue = some (.str tk.title) ∧ e.newValue = some (.str v)) :=
  updateTask_logs_core gen ts ntc am b taskId u tk htemp htk

theorem updateTask_logs_witness :
    ∃ b2 tk2, handleUpdateTask genW "ts" none [] bOld "T" { title := some "New" } =
        some b2 ∧
      jsGet b2.tasks "T" = some tk2 ∧
      tk2.title = "New" ∧
      tk2.activityLog.countP (fun e => e.action == .title_changed) = 1 ∧
      ∀ e ∈ tk2.activityLog, e.action = .title_changed →
        e.oldValue = some (.str "Old") ∧ e.newValue = some (.str "New") := by
  rcases updateTask_logs genW "ts" none [] bOld "T" { title := some "New" }
      { mkTask "T" "doing" with title := "Old" } (by decide) (by decide) with
    ⟨b2, tk2, hrun, hget, htitle, es, hlog, hcount, _, _, _, _, _, _, hvals⟩
  refine ⟨b2, tk2, hrun, hget, htitle, ?_, ?_⟩
  · rw [hlog, List.countP_append, hcount]
    decide
  · intro e he ha
    rw [hlog] at he
    rcases List.mem_append.1 he with h | h
    · exact absurd h (List.not_mem_nil e)
    · exact hvals "New" rfl e h ha

/-- C10 counterexample: a drag gesture that moves task A from column doing to
column done changes the task's columnId, a semantically meaningful field, yet
the dispatched snapshot holds the task with its activity log unchanged (still
empty): the drag-end handler records no entry alongside the move. -/
theorem dragMove_no_log_counterexample :
    (jsGet bTwo.tasks "A").map (fun t => t.activityLog) = some [] ∧
    ((handleDragEnd bTwo { activeId := "A", overId := some "done" }).bind
        (fun b2 => jsGet b2.tasks "A")).map (fun t => (t.columnId, t.activityLog)) =
      some ("done", []) := by
  decide

/-- C10 amended: updateTask does append exactly one column_changed entry when
the patch moves the task to a different column, but the drag-end handler does
not: a cross-column drag — whether the drop lands on the target column itself
or on a task inside it — rewrites the moved task's columnId and leaves its
activity log exactly as it was, so drag moves are the field change without a
recorded entry. -/
theorem logging_on_column_change (b : Board) (sCol tCol : Column) (taskId : String)
    (tk : Task)
    (hids : (b.columns.map Column.id).Nodup)
    (hs : sCol ∈ b.columns) (ht : tCol ∈ b.columns)
    (hst : sCol.id ≠ tCol.id)
    (htk : jsGet b.tasks taskId = some tk)
    (htkcol : tk.columnId = sCol.id) :
    (∃ b2, handleDragEnd b { activeId := taskId, overId := some tCol.id } = some b2 ∧
      jsGet b2.tasks taskId = some { tk with columnId := tCol.id } ∧
      ∀ tk2, jsGet b2.tasks taskId = some tk2 →
        tk2.columnId = tCol.id ∧ tk2.activityLog = tk.activityLog) ∧
    (∀ refId tk2, jsGet b.tasks refId = some tk2 → tk2.columnId = tCol.id →
      (∀ c ∈ b.columns, c.id ≠ refId) →
      ∃ b2, handleDragEnd b { activeId := taskId, overId := some refId } = some b2 ∧
        jsGet b2.tasks taskId = some { tk with columnId := tCol.id } ∧
        ∀ tk3, jsGet b2.tasks taskId = some tk3 →
          tk3.columnId = tCol.id ∧ tk3.activityLog = tk.activityLog) ∧
    (∀ gen ts ntc am u, startsWithTemp taskId = false → u.columnId = some tCol.id →
      ∃ b2 tk2, handleUpdateTask gen ts ntc am b taskId u = some b2 ∧
        jsGet b2.tasks taskId = some tk2 ∧
        ∃ es, tk2.activityLog = tk.activityLog ++ es ∧
          es.countP (fun e => e.action == .column_changed) = 1) := by
  refine ⟨?_, ?_, ?_⟩
  · have hfindT : b.columns.find? (fun c => c.id == tCol.id) = some tCol :=
      find?_col_of_mem _ hids tCol ht _ rfl
    have hfindS : b.columns.find? (fun c => c.id == tk.columnId) = some sCol :=
      find?_col_of_mem _ hids sCol hs _ htkcol.symm
    simp only [handleDragEnd, htk, hfindT, hfindS]
    rw [if_pos hst]
    refine ⟨_, rfl, ?_, ?_⟩
    · show jsGet (jsSet b.tasks taskId _) taskId = _
      rw [jsGet_jsSet, if_pos rfl]
    · intro tk2 h2
      have : jsGet (jsSet b.tasks taskId { tk with columnId := tCol.id }) taskId =
          some { tk with columnId := tCol.id } := by
        rw [jsGet_jsSet, if_pos rfl]
      rw [show jsGet _ taskId = some tk2 from h2] at this
      cases Option.some.inj this
      exact ⟨rfl, rfl⟩
  · intro refId tk2 href htk2col hrefNotCol
    have hfindRef : b.columns.find? (fun c => c.id == refId) = none :=
      find?_col_eq_none _ _ hrefNotCol
    have hfindS : b.columns.find? (fun c => c.id == tk.columnId) = some sCol :=
      find?_col_of_mem _ hids sCol hs _ htkcol.symm
    have hfindT2 : b.columns.find? (fun c => c.id == tk2.columnId) = some tCol :=
      find?_col_of_mem _ hids tCol ht _ htk2col.symm
    have hcc : ¬(tk.columnId = tk2.columnId) := by
      rw [htkcol, htk2col]
      exact hst
    simp only [handleDragEnd, htk, hfindRef, href, hfindS, hfindT2]
    rw [if_neg hcc]
    refine ⟨_, rfl, ?_, ?_⟩
    · show jsGet (jsSet b.tasks taskId _) taskId = _
      rw [jsGet_jsSet, if_pos rfl]
    · intro tk3 h3
      have hset : jsGet (jsSet b.tasks taskId { tk with columnId := tCol.id }) taskId =
          some { tk with columnId := tCol.id } := by
        rw [jsGet_jsSet, if_pos rfl]
      rw [show jsGet _ taskId = some tk3 from h3] at hset
      cases Option.some.inj hset
      exact ⟨rfl, rfl⟩
  · intro gen ts ntc am u htemp hcol
    rcases updateTask_logs_core gen ts ntc am b taskId u tk htemp htk with
      ⟨b2, tk2, hrun, hget, _, es, hlog, _, _, _, hcount, _⟩
    refine ⟨b2, tk2, hrun, hget, es, hlog, ?_⟩
    have hdiff : columnDiff tk u = true := by
      rw [columnDiff, hcol]
      have : tCol.id ≠ tk.columnId := by
        rw [htkcol]
        exact fun h => hst h.symm
      simpa using this
    rw [hcount, if_pos hdiff]

theorem flatten_nodup_not_two_cols (x : String) (c1 c2 : Column) (hne : c1 ≠ c2) :
    ∀ cols : List Column, ((cols.map Column.taskIds).flatten).Nodup →
      c1 ∈ cols → c2 ∈ cols → x ∈ c1.taskIds → x ∈ c2.taskIds → False := by
  intro cols
  induction cols with
  | nil =>
    intro _ h1
    cases h1
  | cons d rest ih =>
    intro hflat h1 h2 hx1 hx2
    rw [List.map_cons, List.flatten_cons, List.nodup_append] at hflat
    have hdisj := hflat.2.2
    rcases List.mem_cons.1 h1 with rfl | h1r
    · rcases List.mem_cons.1 h2 with rfl | h2r
      · exact hne rfl
      · exact hdisj hx1 (List.mem_flatten.2 ⟨c2.taskIds,
          List.mem_map_of_mem Column.taskIds h2r, hx2⟩)
    · rcases List.mem_cons.1 h2 with rfl | h2r
      · exact hdisj hx2 (List.mem_flatten.2 ⟨c1.taskIds,
          List.mem_map_of_mem Column.taskIds h1r, hx1⟩)
      · exact ih hflat.2.1 h1r h2r hx1 hx2

theorem inv_task_column (b : Board) (hInv : Inv b) (k : String) (t : Task)
    (h : jsGet b.tasks k = some t) :
    ∃ c, c ∈ b.columns ∧ c.id = t.columnId ∧ k ∈ c.taskIds :=
  hInv.2.2.1 (k, t) (jsGet_some_mem b.tasks k t h)

theorem inv_col_nodup (b : Board) (hInv : Inv b) (c : Column) (hc : c ∈ b.columns) :
    c.taskIds.Nodup :=
  List.Nodup.sublist
    (List.sublist_flatten_of_mem (List.mem_map_of_mem Column.taskIds hc)) hInv.2.2.2

theorem inv_globalTagUpdate (b : Board) (hInv : Inv b) (label : String) (tag : Tag) :
    Inv (handleGlobalTagUpdate b label tag) :=
  hInv

theorem inv_addColumn (b : Board) (hInv : Inv b) (newId : String) :
    Inv (handleAddColumn newId b) := by
  obtain ⟨h1, h2, h3, h4⟩ := hInv
  refine ⟨h1, ?_, ?_, ?_⟩
  · intro c hc tid htid
    rcases List.mem_append.1 hc with hc | hc
    · exact h2 c hc tid htid
    · rcases List.mem_cons.1 hc with rfl | hc
      · cases htid
      · exact absurd hc (List.not_mem_nil c)
  · intro p hp
    rcases h3 p hp with ⟨c, hc, hcid, hmem⟩
    exact ⟨c, List.mem_append.2 (Or.inl hc), hcid, hmem⟩
  · show (((b.columns ++ [_]).map Column.taskIds).flatten).Nodup
    rw [List.map_append, List.flatten_append]
    simpa using h4

theorem inv_renameColumn (b : Board) (hInv : Inv b) (cid ti : String) :
    Inv (handleRenameColumn b cid ti) := by
  obtain ⟨h1, h2, h3, h4⟩ := hInv
  have htask : ∀ c : Column,
      ((if c.id = cid then { c with title := ti } else c) : Column).taskIds =
        c.taskIds := by
    intro c
    by_cases h : c.id = cid
    · rw [if_pos h]
    · rw [if_neg h]
  have hid : ∀ c : Column,
      ((if c.id = cid then { c with title := ti } else c) : Column).id = c.id := by
    intro c
    by_cases h : c.id = cid
    · rw [if_pos h]
    · rw [if_neg h]
  refine ⟨h1, ?_, ?_, ?_⟩
  · intro c hc tid htid
    rcases List.mem_map.1 hc with ⟨c0, hc0, rfl⟩
    rw [htask c0] at htid
    exact h2 c0 hc0 tid htid
  · intro p hp
    rcases h3 p hp with ⟨c, hc, hcid, hmem⟩
    refine ⟨(if c.id = cid then { c with title := ti } else c), List.mem_map_of_mem _ hc,
      ?_, ?_⟩
    · rw [hid c]
      exact hcid
    · rw [htask c]
      exact hmem
  · show (((b.columns.map _).map Column.taskIds).flatten).Nodup
    rw [List.map_map]
    have : b.columns.map
        (Column.taskIds ∘ fun col => if col.id = cid then { col with title := ti } else col) =
        b.columns.map Column.taskIds := by
      apply List.map_congr_left
      intro c _
      exact htask c
    rw [this]
    exact h4

theorem inv_deleteTag (b : Board) (hInv : Inv b) (label : String) :
    Inv (handleDeleteTag b label) := by
  obtain ⟨h1, h2, h3, h4⟩ := hInv
  have hkeys : keys (handleDeleteTag b label).tasks = keys b.tasks := by
    show keys (b.tasks.map _) = _
    rw [keys, keys, List.map_map]
    apply List.map_congr_left
    intro p _
    by_cases h : p.2.tags.contains label = true
    · show ((if p.2.tags.contains label = true then _ else p : String × Task)).1 = p.1
      rw [if_pos h]
    · show ((if p.2.tags.contains label = true then _ else p : String × Task)).1 = p.1
      rw [if_neg h]
  refine ⟨?_, ?_, ?_, h4⟩
  · rw [hkeys]
    exact h1
  · intro c hc tid htid
    rw [hkeys]
    exact h2 c hc tid htid
  · intro p hp
    rcases List.mem_map.1 hp with ⟨q, hq, rfl⟩
    rcases h3 q hq with ⟨c, hc, hcid, hmem⟩
    by_cases h : q.2.tags.contains label = true
    · rw [if_pos h]
      exact ⟨c, hc, hcid, hmem⟩
    · rw [if_neg h]
      exact ⟨c, hc, hcid, hmem⟩

theorem flatten_map_sublist (f : Column → Column)
    (hf : ∀ c : Column, ((f c).taskIds).Sublist c.taskIds) :
    ∀ cols : List Column, (((cols.map f).map Column.taskIds).flatten).Sublist
      ((cols.map Column.taskIds).flatten) := by
  intro cols
  induction cols with
  | nil => exact List.Sublist.refl _
  | cons d rest ih =>
    rw [List.map_cons, List.map_cons, List.flatten_cons, List.map_cons,
      List.flatten_cons]
    exact List.Sublist.append (hf d) ih

theorem flatten_filter_sublist (p : Column → Bool) :
    ∀ cols : List Column, (((cols.filter p).map Column.taskIds).flatten).Sublist
      ((cols.map Column.taskIds).flatten) := by
  intro cols
  induction cols with
  | nil => exact List.Sublist.refl _
  | cons d rest ih =>
    rw [List.filter_cons, List.map_cons, List.flatten_cons]
    by_cases h : p d = true
    · rw [if_pos h, List.map_cons, List.flatten_cons]
      exact List.Sublist.append (List.Sublist.refl _) ih
    · rw [if_neg h]
      exact ih.trans (List.sublist_append_right _ _)

theorem nodup_keys_jsDelete (m : List (String × α)) (k : String)
    (h : (keys m).Nodup) : (keys (jsDelete m k)).Nodup := by
  rw [keys_jsDelete]
  exact h.filter _

theorem nodup_keys_foldl_jsDelete (L : List String) :
    ∀ m : List (String × α), (keys m).Nodup →
      (keys (L.foldl (fun acc tid => jsDelete acc tid) m)).Nodup := by
  induction L with
  | nil =>
    intro m hm
    exact hm
  | cons x rest ih =>
    intro m hm
    rw [List.foldl_cons]
    exact ih _ (nodup_keys_jsDelete m x hm)

theorem inv_addTask (b : Board) (hInv : Inv b)
    (hids : (b.columns.map Column.id).Nodup)
    (newId entryId ts cid title : String)
    (hcid : cid ∈ b.columns.map Column.id)
    (hfresh : newId ∉ keys b.tasks) :
    Inv (handleAddTask newId entryId ts b cid title) := by
  obtain ⟨h1, h2, h3, h4⟩ := hInv
  rcases List.mem_map.1 hcid with ⟨tCol, htCol, htColid⟩
  refine ⟨?_, ?_, ?_, ?_⟩
  · show (keys (jsSet b.tasks newId _)).Nodup
    rw [keys_jsSet, if_neg hfresh, List.nodup_append]
    refine ⟨h1, List.nodup_singleton _, fun x hx hx2 => ?_⟩
    have hxe := List.mem_singleton.1 hx2
    subst hxe
    exact hfresh hx
  · intro c hc tid htid
    show tid ∈ keys (jsSet b.tasks newId _)
    rw [keys_jsSet, if_neg hfresh]
    rcases List.mem_map.1 hc with ⟨c0, hc0, rfl⟩
    by_cases h : c0.id = cid
    · rw [if_pos h] at htid
      rcases List.mem_append.1 htid with h2m | h2m
      · exact List.mem_append.2 (Or.inl (h2 c0 hc0 tid h2m))
      · exact List.mem_append.2 (Or.inr h2m)
    · rw [if_neg h] at htid
      exact List.mem_append.2 (Or.inl (h2 c0 hc0 tid htid))
  · intro p hp
    rcases (mem_jsSet b.tasks newId _ h1 p).1 hp with rfl | ⟨hpm, hpk⟩
    · refine ⟨{ tCol with taskIds := tCol.taskIds ++ [newId] },
        List.mem_map.2 ⟨tCol, htCol, ?_⟩, htColid, ?_⟩
      · show (if tCol.id = cid then _ else tCol) = _
        rw [if_pos htColid]
      · exact List.mem_append.2 (Or.inr (List.mem_singleton.2 rfl))
    · rcases h3 p hpm with ⟨c, hc, hcid2, hmem⟩
      by_cases h : c.id = cid
      · refine ⟨{ c with taskIds := c.taskIds ++ [newId] },
          List.mem_map.2 ⟨c, hc, ?_⟩, hcid2, List.mem_append.2 (Or.inl hmem)⟩
        show (if c.id = cid then _ else c) = _
        rw [if_pos h]
      · refine ⟨c, List.mem_map.2 ⟨c, hc, ?_⟩, hcid2, hmem⟩
        show (if c.id = cid then _ else c) = c
        rw [if_neg h]
  · have hg : List.Perm (tCol.taskIds ++ [newId]) (newId :: tCol.taskIds) := by
      have : List.Perm (tCol.taskIds ++ newId :: ([] : List String)) (newId :: (tCol.taskIds ++ [])) := List.perm_middle
      simpa using this
    have hperm := flatten_updateColsAt_perm_cons tCol (fun l => l ++ [newId]) newId hg
      b.columns hids htCol
    rw [htColid] at hperm
    have hnotin : newId ∉ ((b.columns.map Column.taskIds).flatten) := by
      intro hmem
      rcases List.mem_flatten.1 hmem with ⟨l, hl, hxl⟩
      rcases List.mem_map.1 hl with ⟨c, hc, rfl⟩
      exact hfresh (h2 c hc newId hxl)
    exact hperm.symm.nodup (List.nodup_cons.2 ⟨hnotin, h4⟩)

theorem inv_deleteTask (b : Board) (hInv : Inv b) (taskId : String) :
    Inv (handleDeleteTask b taskId) := by
  by_cases htemp : startsWithTemp taskId = true
  · rw [handleDeleteTask, if_pos htemp]
    exact hInv
  · rcases hget : jsGet b.tasks taskId with _ | tk
    · rw [handleDeleteTask, if_neg htemp, hget]
      exact hInv
    · rw [handleDeleteTask, if_neg htemp, hget]
      have hwit := inv_task_column b hInv taskId tk hget
      obtain ⟨h1, h2, h3, h4⟩ := hInv
      rcases hwit with ⟨w, hw, hwid, hwmem⟩
      refine ⟨?_, ?_, ?_, ?_⟩
      · show (keys (jsDelete b.tasks taskId)).Nodup
        exact nodup_keys_jsDelete b.tasks taskId h1
      · intro c hc tid htid
        show tid ∈ keys (jsDelete b.tasks taskId)
        rw [keys_jsDelete]
        rcases List.mem_map.1 hc with ⟨c0, hc0, rfl⟩
        by_cases h : c0.id = tk.columnId
        · rw [if_pos h] at htid
          rcases List.mem_filter.1 htid with ⟨hmem0, hne⟩
          exact List.mem_filter.2 ⟨h2 c0 hc0 tid hmem0, hne⟩
        · rw [if_neg h] at htid
          have hne : tid ≠ taskId := by
            intro heq
            subst heq
            refine flatten_nodup_not_two_cols tid c0 w ?_ b.columns h4 hc0 hw htid hwmem
            intro hcw
            rw [hcw] at h
            exact h hwid
          exact List.mem_filter.2 ⟨h2 c0 hc0 tid htid, by simpa using hne⟩
      · intro p hp
        rcases (mem_jsDelete b.tasks taskId p).1 hp with ⟨hpm, hpk⟩
        rcases h3 p hpm with ⟨c, hc, hcid2, hmem⟩
        by_cases h : c.id = tk.columnId
        · refine ⟨{ c with taskIds := c.taskIds.filter (fun i => i != taskId) },
            List.mem_map.2 ⟨c, hc, ?_⟩, hcid2,
            List.mem_filter.2 ⟨hmem, by simpa using hpk⟩⟩
          show (if c.id = tk.columnId then _ else c) = _
          rw [if_pos h]
        · refine ⟨c, List.mem_map.2 ⟨c, hc, ?_⟩, hcid2, hmem⟩
          show (if c.id = tk.columnId then _ else c) = c
          rw [if_neg h]
      · refine List.Nodup.sublist ?_ h4
        refine flatten_map_sublist _ ?_ b.columns
        intro c
        by_cases h : c.id = tk.columnId
        · show ((if c.id = tk.columnId then _ else c) : Column).taskIds.Sublist _
          rw [if_pos h]
          exact List.filter_sublist _
        · show ((if c.id = tk.columnId then _ else c) : Column).taskIds.Sublist _
          rw [if_neg h]

theorem inv_deleteColumn (b : Board) (hInv : Inv b)
    (hids : (b.columns.map Column.id).Nodup) (cid : String)
    (b2 : Board) (hrun : handleDeleteColumn b cid = some b2) : Inv b2 := by
  obtain ⟨h1, h2, h3, h4⟩ := hInv
  rcases hfind : b.columns.find? (fun c => c.id == cid) with _ | col
  · rw [handleDeleteColumn, hfind] at hrun
    cases hrun
  · rw [handleDeleteColumn, hfind] at hrun
    have hcol : col ∈ b.columns := List.mem_of_find?_eq_some hfind
    have hcolid : col.id = cid := by simpa using List.find?_some hfind
    cases Option.some.inj hrun
    refine ⟨?_, ?_, ?_, ?_⟩
    · show (keys (col.taskIds.foldl (fun m tid => jsDelete m tid) b.tasks)).Nodup
      exact nodup_keys_foldl_jsDelete col.taskIds b.tasks h1
    · intro c hc tid htid
      rcases List.mem_filter.1 hc with ⟨hcm, hcne⟩
      have hcne2 : c.id ≠ cid := by simpa using hcne
      have hnotL : tid ∉ col.taskIds := by
        intro hmem
        refine flatten_nodup_not_two_cols tid c col ?_ b.columns h4 hcm hcol htid hmem
        intro hccol
        rw [hccol] at hcne2
        exact hcne2 hcolid
      show tid ∈ keys (col.taskIds.foldl (fun m tid => jsDelete m tid) b.tasks)
      rw [mem_keys_iff_jsGet, jsGet_foldl_jsDelete, if_neg hnotL, ← mem_keys_iff_jsGet]
      exact h2 c hcm tid htid
    · intro p hp
      rcases (mem_foldl_jsDelete col.taskIds b.tasks p).1 hp with ⟨hpm, hpL⟩
      rcases h3 p hpm with ⟨c, hc, hcid2, hmem⟩
      have hcne : c.id ≠ cid := by
        intro h
        have hcc : c = col := List.inj_on_of_nodup_map hids hc hcol (by rw [h, hcolid])
        rw [hcc] at hmem
        exact hpL hmem
      exact ⟨c, List.mem_filter.2 ⟨hc, by simpa using hcne⟩, hcid2, hmem⟩
    · exact List.Nodup.sublist (flatten_filter_sublist _ b.columns) h4

theorem arrayMove_perm (l : List String) (a : String) (ha : a ∈ l) (j : Nat)
    (hj : j < l.length) : List.Perm (arrayMove l (l.indexOf a) j) l := by
  have hlt : l.indexOf a < l.length := List.indexOf_lt_length.2 ha
  have hget : l.get? (l.indexOf a) = some a := by
    rw [List.get?_eq_getElem?, List.getElem?_eq_getElem hlt, List.getElem_indexOf hlt]
  rw [arrayMove, hget, List.eraseIdx_indexOf_eq_erase]
  have hlen : j ≤ (l.erase a).length := by
    rw [List.length_erase_of_mem ha]
    exact Nat.le_pred_of_lt hj
  exact (insertIdx_perm_cons a j (l.erase a) hlen).trans (List.perm_cons_erase ha).symm

theorem inv_reorder (b : Board) (hInv : Inv b)
    (hids : (b.columns.map Column.id).Nodup)
    (sCol : Column) (hs : sCol ∈ b.columns)
    (f : List String → List String)
    (hf : List.Perm (f sCol.taskIds) sCol.taskIds) :
    Inv { b with columns := b.columns.map (fun c0 =>
      if c0.id = sCol.id then { c0 with taskIds := f c0.taskIds } else c0) } := by
  obtain ⟨h1, h2, h3, h4⟩ := hInv
  have hperm := flatten_updateColsAt_perm_single sCol f hf b.columns hids hs
  refine ⟨h1, ?_, ?_, ?_⟩
  · intro c hc tid htid
    have hmem : tid ∈ (((updateColsAt sCol.id f b.columns).map Column.taskIds).flatten) :=
      List.mem_flatten.2 ⟨c.taskIds, List.mem_map_of_mem Column.taskIds hc, htid⟩
    rcases List.mem_flatten.1 (hperm.mem_iff.1 hmem) with ⟨l, hl, hxl⟩
    rcases List.mem_map.1 hl with ⟨c0, hc0, rfl⟩
    exact h2 c0 hc0 tid hxl
  · intro p hp
    rcases h3 p hp with ⟨c0, hc0, hcid0, hmem0⟩
    by_cases hcs : c0.id = sCol.id
    · have hc0s : c0 = sCol := List.inj_on_of_nodup_map hids hc0 hs (by rw [hcs])
      refine ⟨{ c0 with taskIds := f c0.taskIds }, List.mem_map.2 ⟨c0, hc0, ?_⟩,
        hcid0, ?_⟩
      · show (if c0.id = sCol.id then _ else c0) = _
        rw [if_pos hcs]
      · show p.1 ∈ f c0.taskIds
        rw [hc0s]
        exact hf.mem_iff.2 (hc0s ▸ hmem0)
    · refine ⟨c0, List.mem_map.2 ⟨c0, hc0, ?_⟩, hcid0, hmem0⟩
      show (if c0.id = sCol.id then _ else c0) = c0
      rw [if_neg hcs]
  · exact hperm.symm.nodup h4

theorem inv_move (b : Board) (hInv : Inv b)
    (hids : (b.columns.map Column.id).Nodup)
    (sCol tCol : Column) (hs : sCol ∈ b.columns) (ht : tCol ∈ b.columns)
    (hst : sCol.id ≠ tCol.id)
    (taskId : String) (tk : Task) (hget : jsGet b.tasks taskId = some tk)
    (hscolid : sCol.id = tk.columnId)
    (newTk : Task) (hnewcol : newTk.columnId = tCol.id)
    (g : List String → List String)
    (hg : List.Perm (g tCol.taskIds) (taskId :: tCol.taskIds)) :
    Inv { b with
      columns := b.columns.map (fun c0 =>
        if c0.id = sCol.id then
          { c0 with taskIds := c0.taskIds.filter (fun i => i != taskId) }
        else if c0.id = tCol.id then { c0 with taskIds := g c0.taskIds }
        else c0),
      tasks := jsSet b.tasks taskId newTk } := by
  have hnds : sCol.taskIds.Nodup := inv_col_nodup b hInv sCol hs
  obtain ⟨h1, h2, h3, h4⟩ := hInv
  have hmemkeys : taskId ∈ keys b.tasks := by
    rw [mem_keys_iff_jsGet, hget]
    rfl
  have hwit := h3 (taskId, tk) (jsGet_some_mem _ _ _ hget)
  rcases hwit with ⟨w, hw, hwid, hwmem⟩
  have hws : w = sCol :=
    List.inj_on_of_nodup_map hids hw hs (by rw [hwid, hscolid])
  rw [hws] at hwmem
  have hperm := flatten_two_branch_perm sCol tCol hst
    (fun l => l.filter (fun i => i != taskId)) g taskId rfl hwmem hnds hg
    b.columns hids hs ht
  refine ⟨?_, ?_, ?_, ?_⟩
  · show (keys (jsSet b.tasks taskId newTk)).Nodup
    rw [keys_jsSet, if_pos hmemkeys]
    exact h1
  · intro c hc tid htid
    show tid ∈ keys (jsSet b.tasks taskId newTk)
    rw [keys_jsSet, if_pos hmemkeys]
    have hmem : tid ∈ (((b.columns.map (fun c0 =>
        if c0.id = sCol.id then
          { c0 with taskIds := c0.taskIds.filter (fun i => i != taskId) }
        else if c0.id = tCol.id then { c0 with taskIds := g c0.taskIds }
        else c0)).map Column.taskIds).flatten) :=
      List.mem_flatten.2 ⟨c.taskIds, List.mem_map_of_mem Column.taskIds hc, htid⟩
    rcases List.mem_flatten.1 (hperm.mem_iff.1 hmem) with ⟨l, hl, hxl⟩
    rcases List.mem_map.1 hl with ⟨c0, hc0, rfl⟩
    exact h2 c0 hc0 tid hxl
  · intro p hp
    rcases (mem_jsSet b.tasks taskId newTk h1 p).1 hp with rfl | ⟨hpm, hpk⟩
    · refine ⟨{ tCol with taskIds := g tCol.taskIds },
        List.mem_map.2 ⟨tCol, ht, ?_⟩, ?_, ?_⟩
      · show (if tCol.id = sCol.id then _ else if tCol.id = tCol.id then _ else tCol) = _
        rw [if_neg (fun h => hst h.symm), if_pos rfl]
      · show tCol.id = newTk.columnId
        exact hnewcol.symm
      · show taskId ∈ g tCol.taskIds
        exact hg.mem_iff.2 (List.mem_cons_self _ _)
    · rcases h3 p hpm with ⟨c0, hc0, hcid0, hmem0⟩
      by_cases hcs : c0.id = sCol.id
      · refine ⟨{ c0 with taskIds := c0.taskIds.filter (fun i => i != taskId) },
          List.mem_map.2 ⟨c0, hc0, ?_⟩, hcid0,
          List.mem_filter.2 ⟨hmem0, by simpa using hpk⟩⟩
        show (if c0.id = sCol.id then _ else _) = _
        rw [if_pos hcs]
      · by_cases hct : c0.id = tCol.id
        · have hc0t : c0 = tCol :=
            List.inj_on_of_nodup_map hids hc0 ht (by rw [hct])
          refine ⟨{ c0 with taskIds := g c0.taskIds },
            List.mem_map.2 ⟨c0, hc0, ?_⟩, hcid0, ?_⟩
          · show (if c0.id = sCol.id then _ else if c0.id = tCol.id then _ else c0) = _
            rw [if_neg hcs, if_pos hct]
          · show p.1 ∈ g c0.taskIds
            rw [hc0t]
            exact hg.mem_iff.2 (List.mem_cons_of_mem _ (by
              rw [← hc0t]
              exact hmem0))
        · refine ⟨c0, List.mem_map.2 ⟨c0, hc0, ?_⟩, hcid0, hmem0⟩
          show (if c0.id = sCol.id then _ else if c0.id = tCol.id then _ else c0) = c0
          rw [if_neg hcs, if_neg hct]
  · exact hperm.symm.nodup h4

theorem applyUpdates_columnId_of_not_truthy (b : Board) (tk : Task) (u : TaskUpdates)
    (hok : colMoveOk b tk u = true) (hmv : colMoveTruthy u tk = false) :
    (applyUpdates tk u).columnId = tk.columnId := by
  show u.columnId.getD tk.columnId = tk.columnId
  rcases huc : u.columnId with _ | c
  · rfl
  · simp only [colMoveOk, huc] at hok
    simp only [colMoveTruthy, huc] at hmv
    show c = tk.columnId
    by_cases hceq : c = tk.columnId
    · exact hceq
    · have hb : (c != tk.columnId) = true := by simpa using hceq
      have hce : c = "" := by
        by_cases h0 : c = ""
        · exact h0
        · have h1 : (c != "") = true := by simpa using h0
          rw [h1, hb] at hmv
          simp at hmv
      subst hce
      simp at hok
      exact hok

theorem inv_updateTask (b : Board) (hInv : Inv b)
    (hids : (b.columns.map Column.id).Nodup)
    (gen : Nat → String) (ts : String) (ntc : Option String) (am : List TeamMember)
    (taskId : String) (u : TaskUpdates) (b2 : Board)
    (htemp : startsWithTemp taskId = false)
    (hok : ∀ tk, jsGet b.tasks taskId = some tk → colMoveOk b tk u = true)
    (hrun : handleUpdateTask gen ts ntc am b taskId u = some b2) : Inv b2 := by
  rcases hget : jsGet b.tasks taskId with _ | tk
  · have hnone : handleUpdateTask gen ts ntc am b taskId u = none := by
      simp only [handleUpdateTask, hget]
      rw [if_neg (by rw [htemp]; exact Bool.false_ne_true)]
    rw [hnone] at hrun
    cases hrun
  · have hcomp : handleUpdateTask gen ts ntc am b taskId u = some { b with
        columns := if colMoveTruthy u tk then
            b.columns.map (fun col =>
              if col.id = tk.columnId then
                { col with taskIds := col.taskIds.filter (fun i => i != taskId) }
              else if u.columnId = some col.id then
                { col with taskIds := col.taskIds ++ [taskId] }
              else col)
          else b.columns,
        tasks := jsSet b.tasks taskId { applyUpdates tk u with
          activityLog := tk.activityLog ++ updLogEntries gen ts b.columns am tk u } } := by
      simp only [handleUpdateTask, hget]
      rw [if_neg (by rw [htemp]; exact Bool.false_ne_true)]
    rw [← Option.some.inj (hcomp.symm.trans hrun)]
    by_cases hmv : colMoveTruthy u tk = true
    · rcases huc : u.columnId with _ | c
      · simp [colMoveTruthy, huc] at hmv
      · have hcne : ¬c = "" ∧ ¬c = tk.columnId := by
          rw [colMoveTruthy, huc] at hmv
          simpa using hmv
        have hcok := hok tk hget
        simp only [colMoveOk, huc] at hcok
        have hcin : c ∈ b.columns.map Column.id := by
          simp only [Bool.or_eq_true, beq_iff_eq, Bool.and_eq_true, bne_iff_ne,
            ne_eq] at hcok
          rcases hcok with h | ⟨_, h⟩
          · exact absurd h hcne.2
          · simpa using h
        rcases List.mem_map.1 hcin with ⟨tCol, htm, htid⟩
        rcases inv_task_column b hInv taskId tk hget with ⟨sCol, hsm, hsid, hsmem⟩
        rw [if_pos hmv]
        have hmapeq : b.columns.map (fun col =>
              if col.id = tk.columnId then
                { col with taskIds := col.taskIds.filter (fun i => i != taskId) }
              else if some c = some col.id then
                { col with taskIds := col.taskIds ++ [taskId] }
              else col) =
            b.columns.map (fun c0 =>
              if c0.id = sCol.id then
                { c0 with taskIds := c0.taskIds.filter (fun i => i != taskId) }
              else if c0.id = tCol.id then
                { c0 with taskIds := c0.taskIds ++ [taskId] }
              else c0) := by
          apply List.map_congr_left
          intro c0 _
          by_cases h1 : c0.id = tk.columnId
          · rw [if_pos h1, if_pos (h1.trans hsid.symm)]
          · rw [if_neg h1, if_neg (fun h : c0.id = sCol.id => h1 (h.trans hsid))]
            by_cases h2 : c0.id = c
            · rw [if_pos (by rw [h2]), if_pos (h2.trans htid.symm)]
            · rw [if_neg (fun h => h2 (Option.some.inj h).symm),
                if_neg (fun h : c0.id = tCol.id => h2 (h.trans htid))]
        rw [hmapeq]
        have hst : sCol.id ≠ tCol.id := by
          rw [hsid, htid]
          exact fun h => hcne.2 h.symm
        have hnewcol : ({ applyUpdates tk u with
            activityLog := tk.activityLog ++ updLogEntries gen ts b.columns am tk u } :
              Task).columnId = tCol.id := by
          show u.columnId.getD tk.columnId = tCol.id
          rw [huc, htid]
          rfl
        have hg : List.Perm (tCol.taskIds ++ [taskId]) (taskId :: tCol.taskIds) := by
          have : List.Perm (tCol.taskIds ++ taskId :: ([] : List String)) (taskId :: (tCol.taskIds ++ [])) := List.perm_middle
          simpa using this
        exact inv_move b hInv hids sCol tCol hsm htm hst taskId tk hget hsid _
          hnewcol (fun l => l ++ [taskId]) hg
    · have hmvf : colMoveTruthy u tk = false := by
        rcases hb : colMoveTruthy u tk with _ | _
        · rfl
        · exact absurd hb hmv
      rw [if_neg hmv]
      have hcolid := applyUpdates_columnId_of_not_truthy b tk u (hok tk hget) hmvf
      obtain ⟨h1, h2, h3, h4⟩ := hInv
      have hmemkeys : taskId ∈ keys b.tasks := by
        rw [mem_keys_iff_jsGet, hget]
        rfl
      refine ⟨?_, ?_, ?_, h4⟩
      · show (keys (jsSet b.tasks taskId _)).Nodup
        rw [keys_jsSet, if_pos hmemkeys]
        exact h1
      · intro c hc tid htid
        show tid ∈ keys (jsSet b.tasks taskId _)
        rw [keys_jsSet, if_pos hmemkeys]
        exact h2 c hc tid htid
      · intro p hp
        rcases (mem_jsSet b.tasks taskId _ h1 p).1 hp with rfl | ⟨hpm, hpk⟩
        · rcases h3 (taskId, tk) (jsGet_some_mem _ _ _ hget) with ⟨w, hw, hwid, hwmem⟩
          refine ⟨w, hw, ?_, hwmem⟩
          show w.id = ({ applyUpdates tk u with
            activityLog := tk.activityLog ++ updLogEntries gen ts b.columns am tk u } :
              Task).columnId
          rw [show ({ applyUpdates tk u with
              activityLog := tk.activityLog ++ updLogEntries gen ts b.columns am tk u } :
                Task).columnId = (applyUpdates tk u).columnId from rfl, hcolid]
          exact hwid
        · exact h3 p hpm

theorem inv_dragEnd (b : Board) (hInv : Inv b)
    (hids : (b.columns.map Column.id).Nodup)
    (ev : DragEndEvent) (b2 : Board)
    (hrun : handleDragEnd b ev = some b2) : Inv b2 := by
  rcases ev with ⟨a, o⟩
  rcases o with _ | oid
  · cases hrun
  · rcases hget : jsGet b.tasks a with _ | tk
    · have hnone : handleDragEnd b { activeId := a, overId := some oid } = none := by
        simp only [handleDragEnd, hget]
      rw [hnone] at hrun
      cases hrun
    · rcases hfindO : b.columns.find? (fun c => c.id == oid) with _ | tCol
      · rcases hover : jsGet b.tasks oid with _ | otk
        · have hnone : handleDragEnd b { activeId := a, overId := some oid } = none := by
            simp only [handleDragEnd, hget, hfindO, hover]
          rw [hnone] at hrun
          cases hrun
        · rcases hfindS : b.columns.find? (fun c => c.id == tk.columnId) with _ | sCol
          · have hnone : handleDragEnd b { activeId := a, overId := some oid } = none := by
              simp only [handleDragEnd, hget, hfindO, hover, hfindS]
            rw [hnone] at hrun
            cases hrun
          · rcases hfindT : b.columns.find? (fun c => c.id == otk.columnId) with _ | tCol2
            · have hnone : handleDragEnd b { activeId := a, overId := some oid } = none := by
                simp only [handleDragEnd, hget, hfindO, hover, hfindS, hfindT]
              rw [hnone] at hrun
              cases hrun
            · have hsm : sCol ∈ b.columns := List.mem_of_find?_eq_some hfindS
              have hsid : sCol.id = tk.columnId := by
                simpa using List.find?_some hfindS
              have htm : tCol2 ∈ b.columns := List.mem_of_find?_eq_some hfindT
              have htid : tCol2.id = otk.columnId := by
                simpa using List.find?_some hfindT
              by_cases hsame : tk.columnId = otk.columnId
              · have hcomp : handleDragEnd b { activeId := a, overId := some oid } =
                    some { b with columns := b.columns.map (fun col =>
                      if col.id = sCol.id then
                        { col with taskIds := (arrayMove sCol.taskIds
                            (sCol.taskIds.indexOf a) (sCol.taskIds.indexOf oid)) }
                      else col) } := by
                  simp only [handleDragEnd, hget, hfindO, hover, hfindS, hfindT]
                  rw [if_pos hsame]
                rw [← Option.some.inj (hcomp.symm.trans hrun)]
                have ha : a ∈ sCol.taskIds := by
                  rcases inv_task_column b hInv a tk hget with ⟨w, hw, hwid, hwmem⟩
                  have hw2 : w = sCol :=
                    List.inj_on_of_nodup_map hids hw hsm (by rw [hwid, hsid])
                  rwa [hw2] at hwmem
                have hoid : oid ∈ sCol.taskIds := by
                  rcases inv_task_column b hInv oid otk hover with ⟨w, hw, hwid, hwmem⟩
                  have hw2 : w = sCol := List.inj_on_of_nodup_map hids hw hsm
                    (by rw [hwid, ← hsame, hsid])
                  rwa [hw2] at hwmem
                exact inv_reorder b hInv hids sCol hsm
                  (fun _ => arrayMove sCol.taskIds
                    (sCol.taskIds.indexOf a) (sCol.taskIds.indexOf oid))
                  (arrayMove_perm sCol.taskIds a ha _ (List.indexOf_lt_length.2 hoid))
              · have hcomp : handleDragEnd b { activeId := a, overId := some oid } =
                    some { b with
                      columns := b.columns.map (fun col =>
                        if col.id = sCol.id then
                          { col with
                            taskIds := sCol.taskIds.filter (fun i => i != a) }
                        else if col.id = tCol2.id then
                          { col with taskIds := (List.insertIdx
                              (tCol2.taskIds.indexOf oid) a tCol2.taskIds) }
                        else col),
                      tasks := jsSet b.tasks a { tk with columnId := tCol2.id } } := by
                  simp only [handleDragEnd, hget, hfindO, hover, hfindS, hfindT]
                  rw [if_neg hsame]
                rw [← Option.some.inj (hcomp.symm.trans hrun)]
                have hst : sCol.id ≠ tCol2.id := by
                  intro h
                  apply hsame
                  rw [← hsid, ← htid]
                  exact h
                have hmapeq : b.columns.map (fun col =>
                      if col.id = sCol.id then
                        { col with taskIds := sCol.taskIds.filter (fun i => i != a) }
                      else if col.id = tCol2.id then
                        { col with taskIds := (List.insertIdx
                            (tCol2.taskIds.indexOf oid) a tCol2.taskIds) }
                      else col) =
                    b.columns.map (fun c0 =>
                      if c0.id = sCol.id then
                        { c0 with taskIds := c0.taskIds.filter (fun i => i != a) }
                      else if c0.id = tCol2.id then
                        { c0 with taskIds := ((fun _ => List.insertIdx
                            (tCol2.taskIds.indexOf oid) a tCol2.taskIds) c0.taskIds) }
                      else c0) := by
                  apply List.map_congr_left
                  intro c0 hc0
                  by_cases h1 : c0.id = sCol.id
                  · have hc0s : c0 = sCol :=
                      List.inj_on_of_nodup_map hids hc0 hsm (by rw [h1])
                    rw [if_pos h1, if_pos h1, hc0s]
                  · rw [if_neg h1, if_neg h1]
                have hg : List.Perm
                    ((fun _ => List.insertIdx (tCol2.taskIds.indexOf oid) a
                      tCol2.taskIds) tCol2.taskIds) (a :: tCol2.taskIds) :=
                  insertIdx_perm_cons a _ tCol2.taskIds (List.indexOf_le_length)
                rw [hmapeq]
                exact inv_move b hInv hids sCol tCol2 hsm htm hst a tk hget hsid
                  { tk with columnId := tCol2.id } rfl
                  (fun _ => List.insertIdx (tCol2.taskIds.indexOf oid) a tCol2.taskIds)
                  hg
      · have htm : tCol ∈ b.columns := List.mem_of_find?_eq_some hfindO
        rcases hfindS : b.columns.find? (fun c => c.id == tk.columnId) with _ | sCol
        · have hnone : handleDragEnd b { activeId := a, overId := some oid } = none := by
            simp only [handleDragEnd, hget, hfindO, hfindS]
          rw [hnone] at hrun
          cases hrun
        · have hsm : sCol ∈ b.columns := List.mem_of_find?_eq_some hfindS
          have hsid : sCol.id = tk.columnId := by
            simpa using List.find?_some hfindS
          by_cases hdiff : sCol.id ≠ tCol.id
          · have hcomp : handleDragEnd b { activeId := a, overId := some oid } =
                some { b with
                  columns := b.columns.map (fun col =>
                    if col.id = sCol.id then
                      { col with taskIds := col.taskIds.filter (fun i => i != a) }
                    else if col.id = tCol.id then
                      { col with taskIds := col.taskIds ++ [a] }
                    else col),
                  tasks := jsSet b.tasks a { tk with columnId := tCol.id } } := by
              simp only [handleDragEnd, hget, hfindO, hfindS]
              rw [if_pos hdiff]
            rw [← Option.some.inj (hcomp.symm.trans hrun)]
            have hg : List.Perm (tCol.taskIds ++ [a]) (a :: tCol.taskIds) := by
              have : List.Perm (tCol.taskIds ++ a :: ([] : List String)) (a :: (tCol.taskIds ++ [])) := List.perm_middle
              simpa using this
            exact inv_move b hInv hids sCol tCol hsm htm hdiff a tk hget hsid
              { tk with columnId := tCol.id } rfl (fun l => l ++ [a]) hg
          · have hnone : handleDragEnd b { activeId := a, overId := some oid } = none := by
              simp only [handleDragEnd, hget, hfindO, hfindS]
              rw [if_neg hdiff]
            rw [hnone] at hrun
            cases hrun

theorem logging_on_column_change_witness :
    (∃ b2, handleDragEnd bTwo { activeId := "A", overId := some "done" } = some b2 ∧
      jsGet b2.tasks "A" = some { mkTask "A" "doing" with columnId := "done" } ∧
      ∀ tk2, jsGet b2.tasks "A" = some tk2 →
        tk2.columnId = "done" ∧ tk2.activityLog = (mkTask "A" "doing").activityLog) ∧
    (∃ b2, handleDragEnd bXY { activeId := "A", overId := some "X" } = some b2 ∧
      jsGet b2.tasks "A" = some { mkTask "A" "doing" with columnId := "backlog" } ∧
      ∀ tk3, jsGet b2.tasks "A" = some tk3 →
        tk3.columnId = "backlog" ∧ tk3.activityLog = (mkTask "A" "doing").activityLog) :=
  ⟨(logging_on_column_change bTwo { id := "doing", title := "Doing", taskIds := ["A"] }
      { id := "done", title := "Done", taskIds := [] } "A" (mkTask "A" "doing")
      (by decide) (by decide) (by decide) (by decide) (by decide) (by decide)).1,
   (logging_on_column_change bXY { id := "doing", title := "Doing", taskIds := ["A"] }
      { id := "backlog", title := "Backlog", taskIds := ["X", "Y"] } "A"
      (mkTask "A" "doing")
      (by decide) (by decide) (by decide) (by decide) (by decide) (by decide)).2.1
     "X" (mkTask "X" "backlog") (by decide) (by decide) (by decide)⟩


/-- C1 counterexample: from a board satisfying the invariant, `handleAddTask`
with a column id that matches no column produces a board that violates it:
the new task is stored in the tasks map but no column sequence contains it. -/
theorem inv_not_preserved_counterexample :
    Inv bTwo ∧ ¬ Inv (handleAddTask "N" "E" "ts" bTwo "nope" "x") := by
  decide

/-- C1 (amended): every engine operation preserves the invariant (all task-id
sequences reference stored tasks, each task's columnId names the unique column
holding its id, no duplicates within or across sequences), provided the board's
column ids are distinct and the operation's references are sound: addTask is
given an existing column id and a fresh task id, and updateTask targets a
non-temp task id with a columnId patch that is absent, equal to the task's
current column, or a nonempty id of an existing column (`colMoveOk`). The
nonemptiness requirement is essential, not an artifact: a present-but-empty
patch skips the column move through the truthiness guard yet still overwrites
the task's columnId with the empty string, breaking the invariant. moveTask
(drag), deleteTask, addColumn, renameColumn, deleteColumn, upsertGlobalTag and
deleteGlobalTag need no extra side conditions. -/
theorem inv_preserved (b : Board) (hInv : Inv b)
    (hids : (b.columns.map Column.id).Nodup) :
    (∀ ev b2, handleDragEnd b ev = some b2 → Inv b2) ∧
    (∀ newId entryId ts cid title, cid ∈ b.columns.map Column.id →
      newId ∉ keys b.tasks → Inv (handleAddTask newId entryId ts b cid title)) ∧
    (∀ gen ts ntc am taskId u b2, startsWithTemp taskId = false →
      (∀ tk, jsGet b.tasks taskId = some tk → colMoveOk b tk u = true) →
      handleUpdateTask gen ts ntc am b taskId u = some b2 → Inv b2) ∧
    (∀ taskId, Inv (handleDeleteTask b taskId)) ∧
    (∀ newId, Inv (handleAddColumn newId b)) ∧
    (∀ cid ti, Inv (handleRenameColumn b cid ti)) ∧
    (∀ cid b2, handleDeleteColumn b cid = some b2 → Inv b2) ∧
    (∀ label tag, Inv (handleGlobalTagUpdate b label tag)) ∧
    (∀ label, Inv (handleDeleteTag b label)) :=
  ⟨fun ev b2 h => inv_dragEnd b hInv hids ev b2 h,
   fun newId entryId ts cid title hcid hfresh =>
     inv_addTask b hInv hids newId entryId ts cid title hcid hfresh,
   fun gen ts ntc am taskId u b2 htemp hok hrun =>
     inv_updateTask b hInv hids gen ts ntc am taskId u b2 htemp hok hrun,
   fun taskId => inv_deleteTask b hInv taskId,
   fun newId => inv_addColumn b hInv newId,
   fun cid ti => inv_renameColumn b hInv cid ti,
   fun cid b2 h => inv_deleteColumn b hInv hids cid b2 h,
   fun label tag => inv_globalTagUpdate b hInv label tag,
   fun label => inv_deleteTag b hInv label⟩

/-- Witness for the amended C1 theorem at the concrete board `bTwo`. -/
theorem inv_preserved_witness :
    Inv bTwo ∧ (bTwo.columns.map Column.id).Nodup ∧
      Inv (handleAddTask "N1" "E1" "ts" bTwo "doing" "New task") :=
  ⟨by decide, by decide,
   (inv_preserved bTwo (by decide) (by decide)).2.1 "N1" "E1" "ts" "doing"
     "New task" (by decide) (by decide)⟩

end TaskFlow
